import Mathlib

/-!
Verification of the mailflow email dispatching fabric.

Shallow embedding of the Rust sources (src/src and src/crates/mailflow-core)
into Lean. Rust `String`/`&str` values are modelled as `List Char` (the
sequence of Unicode scalar values); byte buffers (`Vec<u8>`) as `List Nat`;
`Result<T, MailflowError>` as `Except MailflowError T`; `Option` as `Option`;
`HashMap` as association lists; timestamps as `Nat`.
ASCII character classes (`Char.isAlpha`, `Char.isDigit`) coincide with the
Rust regular-expression classes used by the sources on the ASCII inputs the
theorems quantify over.
-/

/-- Rust `String` / `&str`, modelled as its sequence of characters. -/
abbrev Str := List Char

/-! ## Error taxonomy — src/src/error.rs -/

/-- `MailflowError` from src/src/error.rs: the error taxonomy of the system.
Each variant carries its human-readable message. -/
inductive MailflowError where
  | EmailParsing (msg : Str)
  | Routing (msg : Str)
  | Storage (msg : Str)
  | Queue (msg : Str)
  | Ses (msg : Str)
  | Config (msg : Str)
  | Validation (msg : Str)
  | Idempotency (msg : Str)
  | RateLimit (msg : Str)
  | Lambda (msg : Str)
  | Unknown (msg : Str)
deriving DecidableEq

/-- `MailflowError::is_retriable` from src/src/error.rs. -/
def MailflowError.is_retriable : MailflowError → Bool
  | .Storage _ => true
  | .Queue _ => true
  | .Ses _ => true
  | .Config _ => false
  | .Validation _ => false
  | .EmailParsing _ => false
  | .Routing _ => false
  | .Idempotency _ => true
  | .RateLimit _ => false
  | .Lambda _ => false
  | .Unknown _ => false

instance {e a : Type} [DecidableEq e] [DecidableEq a] :
    DecidableEq (Except e a) := fun x y =>
  match x, y with
  | .ok v, .ok w =>
    if h : v = w then .isTrue (by rw [h])
    else .isFalse (by intro hc; cases hc; exact h rfl)
  | .error v, .error w =>
    if h : v = w then .isTrue (by rw [h])
    else .isFalse (by intro hc; cases hc; exact h rfl)
  | .ok _, .error _ => .isFalse (by intro hc; cases hc)
  | .error _, .ok _ => .isFalse (by intro hc; cases hc)

/-- The `Display` rendering of `MailflowError` (the `#[error("...")]`
attributes of src/src/error.rs): kind text followed by the message. -/
def MailflowError.display : MailflowError → Str
  | .EmailParsing s => ("Email parsing error: ").toList ++ s
  | .Routing s => ("Routing error: ").toList ++ s
  | .Storage s => ("Storage error: ").toList ++ s
  | .Queue s => ("Queue error: ").toList ++ s
  | .Ses s => ("SES error: ").toList ++ s
  | .Config s => ("Configuration error: ").toList ++ s
  | .Validation s => ("Validation error: ").toList ++ s
  | .Idempotency s => ("Idempotency error: ").toList ++ s
  | .RateLimit s => ("Rate limit exceeded: ").toList ++ s
  | .Lambda s => ("Lambda runtime error: ").toList ++ s
  | .Unknown s => ("Unknown error: ").toList ++ s

/-! ## Retry wrapper — src/crates/mailflow-core/src/utils/retry.rs

`retry_with_backoff` calls the operation, returns on success, returns
immediately on a non-retriable error, and otherwise sleeps and retries
until `attempt >= config.max_retries`, at which point it returns a
`Lambda` error. The sleeping (`calculate_delay`, jitter) does not affect
which calls happen, so the model elides it. The operation is modelled as
a function of the attempt index; the model additionally counts the number
of invocations of the operation. -/
def retryGo {α : Type} (op : Nat → Except MailflowError α) (maxRetries : Nat)
    (name : Str) (attempt : Nat) (calls : Nat) :
    Except MailflowError α × Nat :=
  match op attempt with
  | .ok v => (.ok v, calls + 1)
  | .error e =>
    if e.is_retriable = false then (.error e, calls + 1)
    else if maxRetries ≤ attempt then
      (.error (.Lambda (("Operation failed after retries: ").toList ++ name)), calls + 1)
    else
      retryGo op maxRetries name (attempt + 1) (calls + 1)
termination_by maxRetries - attempt
decreasing_by omega

/-- `retry_with_backoff` (entered with `attempt = 0`), paired with the
number of times the operation was invoked. -/
def retry_with_backoff {α : Type} (op : Nat → Except MailflowError α)
    (maxRetries : Nat) (name : Str) : Except MailflowError α × Nat :=
  retryGo op maxRetries name 0 0

lemma retryGo_all_retriable {α : Type} (op : Nat → Except MailflowError α)
    (maxRetries : Nat) (name : Str)
    (hop : ∀ k, ∃ e, op k = .error e ∧ e.is_retriable = true) :
    ∀ fuel attempt calls, maxRetries - attempt = fuel →
      (retryGo op maxRetries name attempt calls).2 = calls + fuel + 1 := by
  intro fuel
  induction fuel with
  | zero =>
    intro attempt calls hf
    obtain ⟨e, he, hr⟩ := hop attempt
    unfold retryGo
    rw [he]
    simp [hr, Nat.le_of_sub_eq_zero hf]
  | succ n ih =>
    intro attempt calls hf
    obtain ⟨e, he, hr⟩ := hop attempt
    unfold retryGo
    rw [he]
    have hlt : ¬ maxRetries ≤ attempt := by omega
    simp only [hr, hlt, if_false, Bool.true_eq_false, if_true]
    rw [ih (attempt + 1) (calls + 1) (by omega)]
    omega

/-! ## C8 — retriability classification -/

/-- C8: `is_retriable` marks exactly Storage, Queue, Ses (the outbound
SMTP relay kind, called "Relay" in the spec) and Idempotency as retriable;
Validation, EmailParsing, Routing, RateLimit, Config, Lambda and Unknown
are non-retriable. -/
theorem is_retriable_classification :
    ∀ s : Str,
      (MailflowError.Storage s).is_retriable = true ∧
      (MailflowError.Queue s).is_retriable = true ∧
      (MailflowError.Ses s).is_retriable = true ∧
      (MailflowError.Idempotency s).is_retriable = true ∧
      (MailflowError.Validation s).is_retriable = false ∧
      (MailflowError.EmailParsing s).is_retriable = false ∧
      (MailflowError.Routing s).is_retriable = false ∧
      (MailflowError.RateLimit s).is_retriable = false ∧
      (MailflowError.Config s).is_retriable = false ∧
      (MailflowError.Lambda s).is_retriable = false ∧
      (MailflowError.Unknown s).is_retriable = false := by
  intro s
  exact ⟨rfl, rfl, rfl, rfl, rfl, rfl, rfl, rfl, rfl, rfl, rfl⟩

/-! ## C7 — retry attempt counts -/

/-- C7: with max-retries = N, an operation that always returns a retriable
error is invoked exactly N + 1 times (the initial attempt plus N retries)
before an error is returned, and an operation that returns a non-retriable
error on its first call is invoked exactly once. -/
theorem retry_attempt_counts {α : Type} (op : Nat → Except MailflowError α)
    (n : Nat) (name : Str) :
    ((∀ k, ∃ e, op k = .error e ∧ e.is_retriable = true) →
      (retry_with_backoff op n name).2 = n + 1) ∧
    (∀ e, op 0 = .error e → e.is_retriable = false →
      (retry_with_backoff op n name).2 = 1 ∧
      (retry_with_backoff op n name).1 = .error e) := by
  constructor
  · intro hop
    unfold retry_with_backoff
    rw [retryGo_all_retriable op n name hop n 0 0 (by omega)]
    omega
  · intro e he hr
    unfold retry_with_backoff
    unfold retryGo
    rw [he]
    simp [hr]

/-- Witness for C7 at a concrete operation: an always-retriable-failing
operation with max-retries 3 is called 4 times; a non-retriable failure is
called once. -/
theorem retry_attempt_counts_witness :
    (retry_with_backoff (α := Unit)
      (fun _ => .error (.Storage [])) 3 []).2 = 3 + 1 ∧
    (retry_with_backoff (α := Unit)
      (fun _ => .error (.Validation [])) 3 []).2 = 1 :=
  ⟨(retry_attempt_counts (fun _ => .error (.Storage [])) 3 []).1
      (fun _ => ⟨.Storage [], rfl, rfl⟩),
   ((retry_attempt_counts (fun _ => .error (.Validation [])) 3 []).2
      (.Validation []) rfl rfl).1⟩

/-! ## Email data model — src/src/models -/

/-- `EmailAddress` from src/src/models/email.rs. -/
structure EmailAddress where
  address : Str
  name : Option Str
deriving DecidableEq

/-- `EmailBody` from src/src/models/email.rs. -/
structure EmailBody where
  text : Option Str
  html : Option Str
deriving DecidableEq

/-- `EmailHeaders` from src/src/models/email.rs (`custom: HashMap<String,
String>` modelled as an association list). -/
structure EmailHeaders where
  in_reply_to : Option Str
  references : List Str
  custom : List (Str × Str)
deriving DecidableEq

/-- `AttachmentStatus` from src/src/models/email.rs. -/
inductive AttachmentStatus where
  | Available
  | Failed
deriving DecidableEq

/-- `Attachment` from src/src/models/email.rs (timestamps as `Nat`). -/
structure Attachment where
  filename : Str
  sanitized_filename : Str
  content_type : Str
  size : Nat
  s3_bucket : Str
  s3_key : Str
  presigned_url : Str
  presigned_url_expiration : Nat
  checksum_md5 : Option Str
  status : AttachmentStatus
  error : Option Str
deriving DecidableEq

/-- `AttachmentData` from src/src/models/email.rs (raw bytes as `List Nat`). -/
structure AttachmentData where
  filename : Str
  content_type : Str
  data : List Nat
deriving DecidableEq

/-- `Email` from src/src/models/email.rs, the parsed in-memory form
(`received_at: DateTime<Utc>` modelled as `Nat` epoch time; the Rust field
the Rust fields
`from` and `to` are named `from_addr` and `to_addrs` because `from` and
`to` are Lean keywords). -/
structure Email where
  message_id : Str
  from_addr : EmailAddress
  to_addrs : List EmailAddress
  cc : List EmailAddress
  bcc : List EmailAddress
  reply_to : Option EmailAddress
  subject : Str
  body : EmailBody
  attachments : List Attachment
  headers : EmailHeaders
  received_at : Nat
  attachments_data : List AttachmentData
deriving DecidableEq

/-- `Priority` from src/src/models/messages.rs. -/
inductive Priority where
  | High
  | Normal
  | Low
deriving DecidableEq

/-- `SendOptions` from src/src/models/messages.rs. -/
structure SendOptions where
  priority : Priority
  scheduled_send_time : Option Nat
  track_opens : Bool
  track_clicks : Bool
deriving DecidableEq

/-- `OutboundAttachment` from src/src/models/messages.rs. -/
structure OutboundAttachment where
  filename : Str
  content_type : Str
  s3_bucket : Str
  s3_key : Str
deriving DecidableEq

/-- `OutboundEmail` from src/src/models/messages.rs (the Rust field `from`
and `to` are named `from_addr` and `to_addrs` because they are Lean
keywords). -/
structure OutboundEmail where
  from_addr : EmailAddress
  to_addrs : List EmailAddress
  cc : List EmailAddress
  bcc : List EmailAddress
  reply_to : Option EmailAddress
  subject : Str
  body : EmailBody
  attachments : List OutboundAttachment
  headers : EmailHeaders
deriving DecidableEq

/-- `OutboundMessage` from src/src/models/messages.rs (timestamp as `Nat`). -/
structure OutboundMessage where
  version : Str
  correlation_id : Str
  timestamp : Nat
  source : Str
  email : OutboundEmail
  options : SendOptions
deriving DecidableEq

/-! ## The email-address grammar —
src/crates/mailflow-core/src/utils/validation.rs

`EMAIL_REGEX` is the anchored pattern
`^[a-zA-Z0-9._%+-]+@[a-zA-Z0-9.-]+\.[a-zA-Z]{2,}$`.
Character classes: -/

/-- Local-part class `[a-zA-Z0-9._%+-]`. -/
def isLocalChar (c : Char) : Bool :=
  c.isAlphanum || c = '.' || c = '_' || c = '%' || c = '+' || c = '-'

/-- Domain class `[a-zA-Z0-9.-]`. -/
def isDomainChar (c : Char) : Bool :=
  c.isAlphanum || c = '.' || c = '-'

/-- Split a string at its last `'.'`: `some (before, after)` when a dot
exists, `none` otherwise. -/
def splitLastDot : Str → Option (Str × Str)
  | [] => none
  | c :: cs =>
    match splitLastDot cs with
    | some (b, a) => some (c :: b, a)
    | none => if c = '.' then some ([], cs) else none

/-- Whether the anchored `EMAIL_REGEX` matches the whole string. The
anchored pattern is decided deterministically: the local part must be the
maximal `[a-zA-Z0-9._%+-]` run (its successor must be the `'@'`, which is
outside the class), and the `\.` must consume the last dot (the trailing
`[a-zA-Z]{2,}` admits no dot), with everything before it in the domain
class. -/
def emailRegexMatch (s : Str) : Bool :=
  let localRun := s.takeWhile isLocalChar
  match s.drop localRun.length with
  | '@' :: domainPart =>
    localRun ≠ [] &&
      (match splitLastDot domainPart with
       | some (d, t) =>
         d ≠ [] && d.all isDomainChar && 2 ≤ t.length && t.all Char.isAlpha
       | none => false)
  | _ => false

/-- `validate_email_address` from
src/crates/mailflow-core/src/utils/validation.rs. -/
def validate_email_address (email : Str) : Except MailflowError Unit :=
  if emailRegexMatch email then .ok ()
  else .error (.Validation (("Invalid email address: ").toList ++ email))

/-! ## Outbound validation — src/src/handlers/outbound.rs -/

/-- The `for to in &message.email.to` loop of `validate_outbound_message`:
validates each `to` address in order, propagating the first error. -/
def validateToAddresses : List EmailAddress → Except MailflowError Unit
  | [] => .ok ()
  | a :: rest =>
    match validate_email_address a.address with
    | .error e => .error e
    | .ok () => validateToAddresses rest

/-- `validate_outbound_message` from src/src/handlers/outbound.rs. -/
def validate_outbound_message (message : OutboundMessage) :
    Except MailflowError Unit :=
  if message.email.to_addrs.isEmpty then
    .error (.Validation ("At least one recipient required").toList)
  else if message.email.from_addr.address.isEmpty then
    .error (.Validation ("From address required").toList)
  else if message.email.subject.isEmpty then
    .error (.Validation ("Subject required").toList)
  else if message.email.body.text.isNone && message.email.body.html.isNone then
    .error (.Validation ("Email must have text or HTML body").toList)
  else
    match validate_email_address message.email.from_addr.address with
    | .error e => .error e
    | .ok () => validateToAddresses message.email.to_addrs

lemma validateToAddresses_ok_iff (l : List EmailAddress) :
    validateToAddresses l = .ok () ↔
      ∀ a ∈ l, emailRegexMatch a.address = true := by
  induction l with
  | nil => simp [validateToAddresses]
  | cons a rest ih =>
    by_cases h : emailRegexMatch a.address = true
    · simp [validateToAddresses, validate_email_address, h, ih]
    · simp only [Bool.not_eq_true] at h
      simp [validateToAddresses, validate_email_address, h]

lemma validateToAddresses_error_shape (l : List EmailAddress) :
    validateToAddresses l = .ok () ∨
      ∃ s, validateToAddresses l = .error (.Validation s) := by
  induction l with
  | nil => exact Or.inl rfl
  | cons a rest ih =>
    by_cases h : emailRegexMatch a.address = true
    · simpa [validateToAddresses, validate_email_address, h] using ih
    · simp only [Bool.not_eq_true] at h
      refine Or.inr ⟨("Invalid email address: ").toList ++ a.address, ?_⟩
      simp [validateToAddresses, validate_email_address, h]

/-! ## C3 — outbound validation -/

/-- C3 (amended): `validate_outbound_message` accepts exactly when the
`to` list, `from` address and subject are non-empty, a text or html body
is present, and the `from` address and every `to` address match the email
grammar; every rejection is a `Validation` error. `cc` and `bcc`
addresses are never grammar-checked (see the counterexample). -/
theorem validate_outbound_spec (m : OutboundMessage) :
    (validate_outbound_message m = .ok () ↔
      (m.email.to_addrs ≠ [] ∧ m.email.from_addr.address ≠ [] ∧
        m.email.subject ≠ [] ∧
        (m.email.body.text.isSome = true ∨ m.email.body.html.isSome = true) ∧
        emailRegexMatch m.email.from_addr.address = true ∧
        ∀ a ∈ m.email.to_addrs, emailRegexMatch a.address = true)) ∧
    (validate_outbound_message m = .ok () ∨
      ∃ s, validate_outbound_message m = .error (.Validation s)) := by
  have hbody : ¬((m.email.body.text.isNone && m.email.body.html.isNone) = true) ↔
      (m.email.body.text.isSome = true ∨ m.email.body.html.isSome = true) := by
    cases m.email.body.text <;> cases m.email.body.html <;> simp
  constructor
  · unfold validate_outbound_message
    by_cases h1 : m.email.to_addrs.isEmpty = true
    · rw [List.isEmpty_iff] at h1
      simp [h1]
    · rw [List.isEmpty_iff] at h1
      by_cases h2 : m.email.from_addr.address.isEmpty = true
      · rw [List.isEmpty_iff] at h2
        simp [h1, h2]
      · rw [List.isEmpty_iff] at h2
        by_cases h3 : m.email.subject.isEmpty = true
        · rw [List.isEmpty_iff] at h3
          simp [h1, h2, h3]
        · rw [List.isEmpty_iff] at h3
          by_cases h4 : (m.email.body.text.isNone && m.email.body.html.isNone) = true
          · have h4w : ¬(m.email.body.text.isSome = true ∨
                m.email.body.html.isSome = true) := by
              rw [← hbody]
              simp [h4]
            simp [h1, h2, h3, h4, h4w]
          · by_cases h5 : emailRegexMatch m.email.from_addr.address = true
            · simp [h1, h2, h3, h4, validate_email_address, h5,
                validateToAddresses_ok_iff, hbody.mp h4]
            · simp only [Bool.not_eq_true] at h5
              simp [h1, h2, h3, h4, validate_email_address, h5]
  · unfold validate_outbound_message
    by_cases h1 : m.email.to_addrs.isEmpty = true
    · exact Or.inr ⟨("At least one recipient required").toList, by simp [h1]⟩
    · by_cases h2 : m.email.from_addr.address.isEmpty = true
      · exact Or.inr ⟨("From address required").toList, by simp [h1, h2]⟩
      · by_cases h3 : m.email.subject.isEmpty = true
        · exact Or.inr ⟨("Subject required").toList, by simp [h1, h2, h3]⟩
        · by_cases h4 : (m.email.body.text.isNone && m.email.body.html.isNone) = true
          · exact Or.inr ⟨("Email must have text or HTML body").toList, by
              simp only [h1, h2, h3, h4]
              rfl⟩
          · by_cases h5 : emailRegexMatch m.email.from_addr.address = true
            · have := validateToAddresses_error_shape m.email.to_addrs
              simpa [h1, h2, h3, h4, validate_email_address, h5] using this
            · simp only [Bool.not_eq_true] at h5
              exact Or.inr ⟨("Invalid email address: ").toList ++
                  m.email.from_addr.address, by
                simp [h1, h2, h3, h4, validate_email_address, h5]⟩

/-- A concrete request that is accepted although its `cc` entry fails the
email grammar: used to refute the original C3. -/
def ccUncheckedMessage : OutboundMessage :=
  { version := ("1.0").toList
    correlation_id := ("c-1").toList
    timestamp := 0
    source := ("app1").toList
    email :=
      { from_addr := ⟨("sender@example.com").toList, none⟩
        to_addrs := [⟨("recipient@example.com").toList, none⟩]
        cc := [⟨("not-an-email").toList, none⟩]
        bcc := []
        reply_to := none
        subject := ("Test").toList
        body := ⟨some (("Body").toList), none⟩
        attachments := []
        headers := ⟨none, [], []⟩ }
    options := ⟨.Normal, none, false, false⟩ }

/-- C3 counterexample: a request whose `cc` address does not match the
email grammar is nevertheless accepted — the validator checks only `from`
and `to` against the grammar, so the claim "rejects ... any address
(from, to, cc, bcc)" fails. -/
theorem validate_outbound_cc_not_checked :
    validate_outbound_message ccUncheckedMessage = .ok () ∧
    emailRegexMatch (("not-an-email").toList) = false ∧
    ccUncheckedMessage.email.cc = [⟨("not-an-email").toList, none⟩] :=
  ⟨by rfl, by rfl, rfl⟩

/-- Witness for C3 at a concrete input: the valid request obtained from
`ccUncheckedMessage` by clearing `cc` is accepted, via the amended
characterization. -/
theorem validate_outbound_spec_witness :
    validate_outbound_message ccUncheckedMessage = .ok () :=
  (validate_outbound_spec ccUncheckedMessage).1.mpr
    ⟨by decide, by decide, by decide, Or.inl (by decide), by decide, by decide⟩

/-! ## Security gate — src/src/services/security.rs and src/src/models -/

/-- `SecurityConfig` from src/src/models/config.rs. -/
structure SecurityConfig where
  require_spf : Bool
  require_dkim : Bool
  require_dmarc : Bool
  max_emails_per_sender_per_hour : Nat
deriving DecidableEq

/-- `Verdict` from the event model (mailflow-core models/events.rs). -/
structure Verdict where
  status : Str
deriving DecidableEq

/-- `SesAction` from the event model. -/
structure SesAction where
  action_type : Str
  bucket_name : Option Str
  object_key : Option Str
deriving DecidableEq

/-- `SesMail` from the event model. -/
structure SesMail where
  message_id : Str
  timestamp : Str
  source : Str
  destination : List Str
deriving DecidableEq

/-- `SesReceiptFull` from the event model. -/
structure SesReceiptFull where
  timestamp : Str
  recipients : List Str
  spf_verdict : Option Verdict
  dkim_verdict : Option Verdict
  spam_verdict : Option Verdict
  virus_verdict : Option Verdict
  action : SesAction
deriving DecidableEq

/-- `SesPayload` from the event model. -/
structure SesPayload where
  mail : SesMail
  receipt : SesReceiptFull
deriving DecidableEq

/-- `SesEventRecord` from the event model. -/
structure SesEventRecord where
  event_source : Str
  event_version : Str
  ses : SesPayload
deriving DecidableEq

/-- The `.map(|v| v.status == "PASS").unwrap_or(false)` pattern of
`validate_ses_verdicts`. -/
def verdictPass (v : Option Verdict) : Bool :=
  match v with
  | some v => v.status == ("PASS").toList
  | none => false

/-- `SecurityValidator::validate_ses_verdicts` from
src/src/services/security.rs. The spam verdict is inspected only for
logging and never produces an error. -/
def validate_ses_verdicts (cfg : SecurityConfig) (record : SesEventRecord) :
    Except MailflowError Unit :=
  if cfg.require_spf && !(verdictPass record.ses.receipt.spf_verdict) then
    .error (.Validation ("Email failed SPF verification").toList)
  else if cfg.require_dkim && !(verdictPass record.ses.receipt.dkim_verdict) then
    .error (.Validation ("Email failed DKIM verification").toList)
  else if (match record.ses.receipt.virus_verdict with
           | some v => !(v.status == ("PASS").toList)
           | none => false) then
    .error (.Validation ("Email failed virus scan").toList)
  else
    .ok ()

/-! ## C5 — security gate characterization -/

/-- C5: the gate rejects with a `Validation` error exactly when
(require-spf and the SPF verdict is absent or not "PASS") or
(require-dkim and the DKIM verdict is absent or not "PASS") or
(a virus verdict is present and not "PASS"); and the result never
depends on the spam verdict, so a spam verdict of "FAIL" cannot cause
rejection. -/
theorem security_gate_spec (cfg : SecurityConfig) (record : SesEventRecord) :
    ((∃ s, validate_ses_verdicts cfg record = .error (.Validation s)) ↔
      ((cfg.require_spf = true ∧
          ∀ v, record.ses.receipt.spf_verdict = some v →
            v.status ≠ ("PASS").toList) ∨
       (cfg.require_dkim = true ∧
          ∀ v, record.ses.receipt.dkim_verdict = some v →
            v.status ≠ ("PASS").toList) ∨
       (∃ v, record.ses.receipt.virus_verdict = some v ∧
          v.status ≠ ("PASS").toList))) ∧
    (∀ sv, validate_ses_verdicts cfg
        { record with ses :=
          { record.ses with receipt :=
            { record.ses.receipt with spam_verdict := sv } } } =
      validate_ses_verdicts cfg record) := by
  have hspf : (cfg.require_spf && !(verdictPass record.ses.receipt.spf_verdict))
      = true ↔
      (cfg.require_spf = true ∧
        ∀ v, record.ses.receipt.spf_verdict = some v →
          v.status ≠ ("PASS").toList) := by
    cases hv : record.ses.receipt.spf_verdict with
    | none => simp [verdictPass]
    | some v =>
      by_cases hs : v.status = ("PASS").toList <;>
        simp [verdictPass, hs]
  have hdkim : (cfg.require_dkim &&
      !(verdictPass record.ses.receipt.dkim_verdict)) = true ↔
      (cfg.require_dkim = true ∧
        ∀ v, record.ses.receipt.dkim_verdict = some v →
          v.status ≠ ("PASS").toList) := by
    cases hv : record.ses.receipt.dkim_verdict with
    | none => simp [verdictPass]
    | some v =>
      by_cases hs : v.status = ("PASS").toList <;>
        simp [verdictPass, hs]
  have hvirus : (match record.ses.receipt.virus_verdict with
      | some v => !(v.status == ("PASS").toList)
      | none => false) = true ↔
      (∃ v, record.ses.receipt.virus_verdict = some v ∧
        v.status ≠ ("PASS").toList) := by
    cases hv : record.ses.receipt.virus_verdict with
    | none => simp
    | some v =>
      by_cases hs : v.status = ("PASS").toList <;> simp [hs]
  constructor
  · unfold validate_ses_verdicts
    by_cases h1 : (cfg.require_spf &&
        !(verdictPass record.ses.receipt.spf_verdict)) = true
    · simp only [h1, if_true]
      exact ⟨fun _ => Or.inl (hspf.mp h1), fun _ => ⟨_, rfl⟩⟩
    · by_cases h2 : (cfg.require_dkim &&
          !(verdictPass record.ses.receipt.dkim_verdict)) = true
      · simp only [h1, h2, if_true, if_false]
        exact ⟨fun _ => Or.inr (Or.inl (hdkim.mp h2)), fun _ => ⟨_, rfl⟩⟩
      · by_cases h3 : (match record.ses.receipt.virus_verdict with
            | some v => !(v.status == ("PASS").toList)
            | none => false) = true
        · simp only [h1, h2, h3, if_true, if_false]
          exact ⟨fun _ => Or.inr (Or.inr (hvirus.mp h3)), fun _ => ⟨_, rfl⟩⟩
        · simp only [h1, h2, h3, if_false]
          constructor
          · rintro ⟨s, hs⟩
            simp at hs
          · rintro (h | h | h)
            · exact absurd (hspf.mpr h) h1
            · exact absurd (hdkim.mpr h) h2
            · exact absurd (hvirus.mpr h) h3
  · intro sv
    unfold validate_ses_verdicts
    rfl

/-! ## File-type oracle — src/crates/mailflow-core/src/utils/file_validation.rs -/

/-- One entry of `ALLOWED_FILE_SIGNATURES`: (mime type, extension,
magic-byte signature). -/
structure SigEntry where
  mime : Str
  ext : Str
  magic : List Nat
deriving DecidableEq

/-- `ALLOWED_FILE_SIGNATURES`. -/
def ALLOWED_FILE_SIGNATURES : List SigEntry :=
  [⟨("image/jpeg").toList, ("jpg").toList, [0xFF, 0xD8, 0xFF]⟩,
   ⟨("image/jpeg").toList, ("jpeg").toList, [0xFF, 0xD8, 0xFF]⟩,
   ⟨("image/png").toList, ("png").toList, [0x89, 0x50, 0x4E, 0x47]⟩,
   ⟨("image/gif").toList, ("gif").toList, [0x47, 0x49, 0x46, 0x38]⟩,
   ⟨("image/webp").toList, ("webp").toList, [0x52, 0x49, 0x46, 0x46]⟩,
   ⟨("image/bmp").toList, ("bmp").toList, [0x42, 0x4D]⟩,
   ⟨("image/tiff").toList, ("tiff").toList, [0x49, 0x49, 0x2A, 0x00]⟩,
   ⟨("image/tiff").toList, ("tif").toList, [0x49, 0x49, 0x2A, 0x00]⟩,
   ⟨("application/pdf").toList, ("pdf").toList, [0x25, 0x50, 0x44, 0x46]⟩,
   ⟨("application/vnd.openxmlformats-officedocument.wordprocessingml.document").toList,
     ("docx").toList, [0x50, 0x4B, 0x03, 0x04]⟩,
   ⟨("application/vnd.openxmlformats-officedocument.spreadsheetml.sheet").toList,
     ("xlsx").toList, [0x50, 0x4B, 0x03, 0x04]⟩,
   ⟨("application/vnd.openxmlformats-officedocument.presentationml.presentation").toList,
     ("pptx").toList, [0x50, 0x4B, 0x03, 0x04]⟩,
   ⟨("application/zip").toList, ("zip").toList, [0x50, 0x4B, 0x03, 0x04]⟩,
   ⟨("text/plain").toList, ("txt").toList, []⟩,
   ⟨("text/csv").toList, ("csv").toList, []⟩,
   ⟨("text/html").toList, ("html").toList, []⟩,
   ⟨("text/xml").toList, ("xml").toList, []⟩,
   ⟨("application/json").toList, ("json").toList, []⟩]

/-- `BLOCKED_EXTENSIONS`. -/
def BLOCKED_EXTENSIONS : List Str :=
  [("exe").toList, ("bat").toList, ("cmd").toList, ("com").toList,
   ("pif").toList, ("scr").toList, ("vbs").toList, ("js").toList,
   ("jar").toList, ("msi").toList, ("app").toList, ("deb").toList,
   ("rpm").toList, ("dmg").toList, ("pkg").toList, ("sh").toList,
   ("bash").toList, ("ps1").toList, ("dll").toList, ("so").toList,
   ("dylib").toList, ("sys").toList, ("ocx").toList]

/-- `get_extension`: `None` when the filename has no `'.'` or the part
after the last `'.'` is empty; otherwise that part, lower-cased.
(`str::to_lowercase` is modelled by `Char.toLower`, which agrees on
ASCII.) -/
def get_extension (filename : Str) : Option Str :=
  match splitLastDot filename with
  | none => none
  | some (_, after) =>
    if after.isEmpty then none else some (after.map Char.toLower)

/-- `is_extension_blocked`. -/
def is_extension_blocked (filename : Str) : Bool :=
  match get_extension filename with
  | some ext => BLOCKED_EXTENSIONS.contains ext
  | none => false

/-- The `for (mime_type, _, magic_bytes) in allowed_signatures` loop of
`validate_file_type`: first entry with empty magic bytes, or whose magic
bytes are a prefix of the content, accepts with its mime type. -/
def checkSignatures (content : List Nat) :
    List SigEntry → Option Str
  | [] => none
  | entry :: rest =>
    if entry.magic.isEmpty then some entry.mime
    else if entry.magic.length ≤ content.length ∧
        content.take entry.magic.length = entry.magic then
      some entry.mime
    else checkSignatures content rest

/-- `validate_file_type`. -/
def validate_file_type (filename : Str) (content : List Nat)
    (_declared_content_type : Str) : Except MailflowError Str :=
  if is_extension_blocked filename then
    .error (.Validation (("File type not allowed (blocked extension): ").toList
      ++ filename))
  else
    match get_extension filename with
    | none =>
      .error (.Validation (("No file extension found: ").toList ++ filename))
    | some ext =>
      let allowed_signatures :=
        ALLOWED_FILE_SIGNATURES.filter (fun e => e.ext == ext)
      if allowed_signatures.isEmpty then
        .error (.Validation (("File type not allowed: .").toList ++ ext))
      else
        match checkSignatures content allowed_signatures with
        | some mime => .ok mime
        | none =>
          .error (.Validation (("File type mismatch: magic bytes of ").toList
            ++ filename ++ (" do not match expected signature").toList))

/-- The acceptance condition of one whitelist entry: empty magic bytes, or
the content starts with the magic bytes. -/
def sigAccepts (content : List Nat) (e : SigEntry) : Prop :=
  e.magic = [] ∨ content.take e.magic.length = e.magic

lemma sigAccepts_le (content : List Nat) (m : List Nat)
    (h : content.take m.length = m) : m.length ≤ content.length := by
  have := congrArg List.length h
  simp [List.length_take] at this
  omega

lemma checkSignatures_of_accepts (content : List Nat) (l : List SigEntry)
    (h : ∃ e ∈ l, sigAccepts content e) :
    ∃ mime, checkSignatures content l = some mime ∧
      ∃ e ∈ l, e.mime = mime ∧ sigAccepts content e := by
  induction l with
  | nil => simp at h
  | cons entry rest ih =>
    by_cases ha : sigAccepts content entry
    · refine ⟨entry.mime, ?_, entry, by simp, rfl, ha⟩
      rcases ha with h0 | h0
      · simp [checkSignatures, h0]
      · have hle := sigAccepts_le content entry.magic h0
        by_cases hm : entry.magic.isEmpty
        · simp [checkSignatures, hm]
        · simp only [checkSignatures]
          rw [if_neg hm, if_pos ⟨hle, h0⟩]
    · have hrest : ∃ e ∈ rest, sigAccepts content e := by
        rcases h with ⟨e, he, hacc⟩
        rcases List.mem_cons.mp he with rfl | he'
        · exact absurd hacc ha
        · exact ⟨e, he', hacc⟩
      obtain ⟨mime, hck, e, he, hmime, hacc⟩ := ih hrest
      have hm : ¬ entry.magic.isEmpty = true := by
        intro hc
        exact ha (Or.inl (List.isEmpty_iff.mp hc))
      refine ⟨mime, ?_, e, List.mem_cons_of_mem _ he, hmime, hacc⟩
      simp only [checkSignatures]
      rw [if_neg hm, if_neg (fun hc => ha (Or.inr hc.2))]
      exact hck

lemma checkSignatures_of_rejects (content : List Nat) (l : List SigEntry)
    (h : ∀ e ∈ l, ¬ sigAccepts content e) :
    checkSignatures content l = none := by
  induction l with
  | nil => rfl
  | cons entry rest ih =>
    have ha := h entry (by simp)
    have hm : ¬ entry.magic.isEmpty = true := by
      intro hc
      exact ha (Or.inl (List.isEmpty_iff.mp hc))
    simp only [checkSignatures]
    rw [if_neg hm, if_neg (fun hc => ha (Or.inr hc.2))]
    exact ih (fun e he => h e (List.mem_cons_of_mem _ he))

/-! ## C6 — file-type oracle -/

/-- C6: the oracle rejects any blocked extension regardless of content;
rejects when the extension belongs to no whitelist entry (including a
missing extension); accepts with the matching whitelist content-type when
some whitelist entry for the extension has empty magic bytes or the
content starts with that entry's magic bytes; and otherwise rejects with
the magic-bytes-mismatch error. All rejections are `Validation` errors. -/
theorem file_type_oracle_spec (filename : Str) (content : List Nat)
    (ct : Str) :
    (is_extension_blocked filename = true →
      ∃ s, validate_file_type filename content ct = .error (.Validation s)) ∧
    (is_extension_blocked filename = false →
      (∀ e ∈ ALLOWED_FILE_SIGNATURES, get_extension filename ≠ some e.ext) →
      ∃ s, validate_file_type filename content ct = .error (.Validation s)) ∧
    (∀ ext, is_extension_blocked filename = false →
      get_extension filename = some ext →
      (∃ e ∈ ALLOWED_FILE_SIGNATURES, e.ext = ext ∧ sigAccepts content e) →
      ∃ mime, validate_file_type filename content ct = .ok mime ∧
        ∃ e ∈ ALLOWED_FILE_SIGNATURES, e.ext = ext ∧ e.mime = mime ∧
          sigAccepts content e) ∧
    (∀ ext, is_extension_blocked filename = false →
      get_extension filename = some ext →
      (∃ e ∈ ALLOWED_FILE_SIGNATURES, e.ext = ext) →
      (∀ e ∈ ALLOWED_FILE_SIGNATURES, e.ext = ext →
        ¬ sigAccepts content e) →
      ∃ s, validate_file_type filename content ct = .error (.Validation s)) := by
  refine ⟨?_, ?_, ?_, ?_⟩
  · intro hb
    exact ⟨("File type not allowed (blocked extension): ").toList ++ filename,
      by simp [validate_file_type, hb]⟩
  · intro hb hnone
    cases hgx : get_extension filename with
    | none =>
      exact ⟨("No file extension found: ").toList ++ filename,
        by simp [validate_file_type, hb, hgx]⟩
    | some ext =>
      have hfil : ALLOWED_FILE_SIGNATURES.filter
          (fun e => e.ext == ext) = [] := by
        rw [List.filter_eq_nil_iff]
        intro e he
        simp only [beq_iff_eq]
        intro hc
        exact hnone e he (by rw [hgx, hc])
      exact ⟨("File type not allowed: .").toList ++ ext,
        by simp [validate_file_type, hb, hgx, hfil]⟩
  · intro ext hb hgx ⟨e, he, hext, hacc⟩
    have hmem : e ∈ ALLOWED_FILE_SIGNATURES.filter
        (fun e2 => e2.ext == ext) :=
      List.mem_filter.mpr ⟨he, by simp [hext]⟩
    obtain ⟨mime, hck, e2, he2, hm2, hacc2⟩ :=
      checkSignatures_of_accepts content
        (ALLOWED_FILE_SIGNATURES.filter (fun e2 => e2.ext == ext))
        ⟨e, hmem, hacc⟩
    have he2' := List.mem_filter.mp he2
    have hne : (ALLOWED_FILE_SIGNATURES.filter
        (fun e2 => e2.ext == ext)).isEmpty = false := by
      rw [List.isEmpty_eq_false_iff_exists_mem]
      exact ⟨e, hmem⟩
    refine ⟨mime, ?_, e2, he2'.1, by simpa using he2'.2, hm2, hacc2⟩
    simp [validate_file_type, hb, hgx, hne, hck]
  · intro ext hb hgx ⟨e, he, hext⟩ hrej
    have hmem : e ∈ ALLOWED_FILE_SIGNATURES.filter
        (fun e2 => e2.ext == ext) :=
      List.mem_filter.mpr ⟨he, by simp [hext]⟩
    have hne : (ALLOWED_FILE_SIGNATURES.filter
        (fun e2 => e2.ext == ext)).isEmpty = false := by
      rw [List.isEmpty_eq_false_iff_exists_mem]
      exact ⟨e, hmem⟩
    have hck := checkSignatures_of_rejects content
      (ALLOWED_FILE_SIGNATURES.filter (fun e2 => e2.ext == ext))
      (fun e2 he2 => by
        have h2 := List.mem_filter.mp he2
        exact hrej e2 h2.1 (by simpa using h2.2))
    exact ⟨("File type mismatch: magic bytes of ").toList ++ filename ++
        (" do not match expected signature").toList,
      by simp [validate_file_type, hb, hgx, hne, hck]⟩

/-- Witness for C6 at concrete inputs: `report.pdf` starting with
`%PDF-1.4` is accepted and `virus.exe` is rejected regardless of bytes. -/
theorem file_type_oracle_spec_witness :
    (∃ mime, validate_file_type (("report.pdf").toList)
        [0x25, 0x50, 0x44, 0x46, 0x2D, 0x31, 0x2E, 0x34]
        (("application/pdf").toList) = .ok mime ∧
      ∃ e ∈ ALLOWED_FILE_SIGNATURES, e.ext = ("pdf").toList ∧
        e.mime = mime ∧
        sigAccepts [0x25, 0x50, 0x44, 0x46, 0x2D, 0x31, 0x2E, 0x34] e) ∧
    (∃ s, validate_file_type (("virus.exe").toList) [0x4D, 0x5A]
        (("application/x-msdownload").toList) = .error (.Validation s)) :=
  ⟨(file_type_oracle_spec (("report.pdf").toList)
      [0x25, 0x50, 0x44, 0x46, 0x2D, 0x31, 0x2E, 0x34]
      (("application/pdf").toList)).2.2.1 (("pdf").toList)
      (by decide) (by decide)
      ⟨⟨("application/pdf").toList, ("pdf").toList,
          [0x25, 0x50, 0x44, 0x46]⟩, by decide, by decide,
        Or.inr (by decide)⟩,
   (file_type_oracle_spec (("virus.exe").toList) [0x4D, 0x5A]
      (("application/x-msdownload").toList)).1 (by decide)⟩

/-! ## Subject redaction — src/src/utils/logging.rs

`redact_subject` works on the Rust string's UTF-8 bytes: `subject.len()`
is the byte length, and `&subject[..3]` slices the first 3 bytes, which
PANICS when byte index 3 is not a character boundary. The model makes the
byte arithmetic explicit and returns `none` where Rust panics. -/

/-- UTF-8 encoded length in bytes of one character. -/
def utf8Len (c : Char) : Nat :=
  if c.toNat < 0x80 then 1
  else if c.toNat < 0x800 then 2
  else if c.toNat < 0x10000 then 3
  else 4

/-- Rust `str::len`: the UTF-8 byte length. -/
def byteLen (s : Str) : Nat := (s.map utf8Len).sum

/-- Rust `&s[..n]`: the characters making up the first `n` bytes, or
`none` (a Rust panic) when `n` falls inside a multi-byte character or
beyond the string. -/
def byteSlice : Str → Nat → Option Str
  | _, 0 => some []
  | [], _ + 1 => none
  | c :: cs, n + 1 =>
    if utf8Len c ≤ n + 1 then
      (byteSlice cs (n + 1 - utf8Len c)).map (fun p => c :: p)
    else none

/-- `redact_subject`: subjects shorter than 6 bytes are returned verbatim;
otherwise the first 3 bytes are kept and the byte length is appended as
`...[N chars]`. `none` models the Rust byte-slicing panic. -/
def redact_subject (subject : Str) : Option Str :=
  if byteLen subject < 6 then some subject
  else (byteSlice subject 3).map
    (fun visible => visible ++ ("...[").toList ++
      (toString (byteLen subject)).toList ++ (" chars]").toList)

/-! ## C10 — subject redaction totality -/

/-- C10: `redact_subject` is NOT total. On the 6-byte subject "ααα"
(UTF-8 bytes CE B1 CE B1 CE B1) the redaction branch slices
`&subject[..3]`, and byte 3 falls inside the second two-byte character,
so the Rust code panics (`none` in the model). On ASCII subjects of the
same shape the function behaves as documented. -/
theorem redact_subject_panics_on_multibyte :
    redact_subject (("ααα").toList) = none ∧
    byteLen (("ααα").toList) = 6 ∧
    redact_subject (("Confidential Document").toList) =
      some (("Con...[21 chars]").toList) := by
  refine ⟨by decide, by decide, ?_⟩
  rfl

/-! ## Routing — src/src/routing and src/src/models/config.rs -/

/-- `AppRouting` from src/src/models/config.rs. -/
structure AppRouting where
  queue_url : Str
  enabled : Bool
  aliases : List Str
deriving DecidableEq

/-- `AttachmentConfig` from src/src/models/config.rs. -/
structure AttachmentConfig where
  bucket : Str
  presigned_url_expiration : Nat
  max_size : Nat
  allowed_types : List Str
  blocked_types : List Str
  scan_for_malware : Bool
deriving DecidableEq

/-- `RetentionConfig` from src/src/models/config.rs. -/
structure RetentionConfig where
  raw_emails : Nat
  attachments : Nat
  logs : Nat
deriving DecidableEq

/-- `MailflowConfig` from src/src/models/config.rs (`routing:
HashMap<String, AppRouting>` modelled as an association list; the
`HashSet`/`HashMap` iteration order of the Rust code is unspecified, the
model fixes the list order — the routing properties proved below do not
depend on it). -/
structure MailflowConfig where
  version : Str
  domains : List Str
  routing : List (Str × AppRouting)
  default_queue : Str
  unknown_queue : Str
  attachments : AttachmentConfig
  security : SecurityConfig
  retention : RetentionConfig
deriving DecidableEq

/-- `RouteDestination` from src/src/routing/rules.rs. -/
structure RouteDestination where
  app_name : Str
  queue_url : Str
deriving DecidableEq

/-- `extract_app_name` from src/src/routing/rules.rs: the local part
(before the first `'@'`, or the whole string when there is no `'@'`)
with a leading `'_'` stripped; `none` when it does not start with `'_'`. -/
def extract_app_name (email : Str) : Option Str :=
  match email.takeWhile (fun c => !(c == '@')) with
  | '_' :: rest => some rest
  | _ => none

/-- `QueueResolver::resolve` from src/src/routing/resolver.rs: exact
enabled match in the routing map first, then the first enabled route
whose aliases contain the name, otherwise a `Routing` error. -/
def QueueResolver.resolve (config : MailflowConfig) (app_name : Str) :
    Except MailflowError Str :=
  match config.routing.find? (fun kv => kv.1 == app_name && kv.2.enabled) with
  | some kv => .ok kv.2.queue_url
  | none =>
    match config.routing.find?
        (fun kv => kv.2.enabled && kv.2.aliases.contains app_name) with
    | some kv => .ok kv.2.queue_url
    | none =>
      .error (.Routing (("No queue configured for app: ").toList ++ app_name))

/-- `MailflowRouter::extract_app_names`: app names of all to/cc/bcc
recipients, deduplicated (the Rust `HashSet` is modelled as a duplicate-
free list). -/
def extract_app_names (email : Email) : List Str :=
  ((email.to_addrs ++ email.cc ++ email.bcc).filterMap
    (fun addr => extract_app_name addr.address)).dedup

/-- `MailflowRouter::route` from src/src/routing/engine.rs: default queue
when no app addresses are present; otherwise one destination per app
name, falling back to the default queue (with app name "default") when
the resolver fails. -/
def MailflowRouter.route (config : MailflowConfig) (email : Email) :
    List RouteDestination :=
  let app_names := extract_app_names email
  if app_names.isEmpty then
    [⟨("default").toList, config.default_queue⟩]
  else
    app_names.map (fun app_name =>
      match QueueResolver.resolve config app_name with
      | .ok queue_url => ⟨app_name, queue_url⟩
      | .error _ => ⟨("default").toList, config.default_queue⟩)

/-! ## Inbound envelopes — src/src/handlers/inbound.rs -/

/-- `MessageMetadata` from src/src/models/messages.rs (`spam_score: f32`,
always set to `0.0` by `build_inbound_message`, is modelled as `Nat`). -/
structure MessageMetadata where
  routing_key : Str
  domain : Str
  spam_score : Nat
  dkim_verified : Bool
  spf_verified : Bool
deriving DecidableEq

/-- `InboundEmail` from src/src/models/messages.rs. -/
structure InboundEmail where
  message_id : Str
  from_addr : EmailAddress
  to_addrs : List EmailAddress
  cc : List EmailAddress
  reply_to : Option EmailAddress
  subject : Str
  body : EmailBody
  attachments : List Attachment
  headers : EmailHeaders
  received_at : Nat
deriving DecidableEq

/-- `InboundMessage` from src/src/models/messages.rs. -/
structure InboundMessage where
  version : Str
  message_id : Str
  timestamp : Nat
  source : Str
  email : InboundEmail
  metadata : MessageMetadata
deriving DecidableEq

/-- `build_inbound_message` from src/src/handlers/inbound.rs. The fresh
UUID and the wall-clock timestamp are passed in as parameters `uuid` and
`now`. The metadata domain is the part after `'@'` of the first `to`
address, or "unknown". -/
def build_inbound_message (email : Email) (routing_key : Str)
    (uuid : Str) (now : Nat) : InboundMessage :=
  let domain :=
    match email.to_addrs.head? with
    | some addr =>
      match (addr.address.dropWhile (fun c => !(c == '@'))) with
      | _ :: rest => rest.takeWhile (fun c => !(c == '@'))
      | [] => ("unknown").toList
    | none => ("unknown").toList
  { version := ("1.0").toList
    message_id := ("mailflow-").toList ++ uuid
    timestamp := now
    source := ("mailflow").toList
    email :=
      { message_id := email.message_id
        from_addr := email.from_addr
        to_addrs := email.to_addrs
        cc := email.cc
        reply_to := email.reply_to
        subject := email.subject
        body := email.body
        attachments := email.attachments
        headers := email.headers
        received_at := email.received_at }
    metadata :=
      { routing_key := routing_key
        domain := domain
        spam_score := 0
        dkim_verified := false
        spf_verified := false } }

/-- The external responses consumed by the inbound per-route publish loop
of `process_record`. -/
structure InboundWorld where
  queueExists : Str → Except MailflowError Bool
  sendMessage : Nat → Except MailflowError Str
deriving Inhabited

/-- The step-6 loop of `process_record` (src/src/handlers/inbound.rs):
for each route, check that the target queue exists (failing the whole
record with a `Routing` error when it does not), build the envelope and
send it. Returns the list of published envelopes; `uuidf i` is the UUID
generated for the i-th publish. -/
def inboundSendLoop (w : InboundWorld) (email : Email) (uuidf : Nat → Str)
    (now : Nat) : Nat → List RouteDestination →
      Except MailflowError (List InboundMessage)
  | _, [] => .ok []
  | i, route :: rest =>
    match w.queueExists route.queue_url with
    | .error e => .error e
    | .ok false =>
      .error (.Routing (("Target queue does not exist for app: ").toList
        ++ route.app_name))
    | .ok true =>
      let msg := build_inbound_message email route.app_name (uuidf i) now
      match w.sendMessage i with
      | .error e => .error e
      | .ok _ =>
        match inboundSendLoop w email uuidf now (i + 1) rest with
        | .error e => .error e
        | .ok msgs => .ok (msg :: msgs)

lemma inboundSendLoop_ok_map (w : InboundWorld) (email : Email)
    (uuidf : Nat → Str) (now : Nat) :
    ∀ (routes : List RouteDestination) (i : Nat)
      (msgs : List InboundMessage),
      inboundSendLoop w email uuidf now i routes = .ok msgs →
      msgs.map (fun m => m.metadata.routing_key) =
        routes.map (fun r => r.app_name) := by
  intro routes
  induction routes with
  | nil =>
    intro i msgs h
    simp only [inboundSendLoop] at h
    cases h
    rfl
  | cons route rest ih =>
    intro i msgs h
    simp only [inboundSendLoop] at h
    cases hq : w.queueExists route.queue_url with
    | error e => rw [hq] at h; cases h
    | ok b =>
      cases b with
      | false => rw [hq] at h; cases h
      | true =>
        rw [hq] at h
        cases hs : w.sendMessage i with
        | error e => rw [hs] at h; cases h
        | ok mid =>
          rw [hs] at h
          cases hr : inboundSendLoop w email uuidf now (i + 1) rest with
          | error e => rw [hr] at h; cases h
          | ok msgs2 =>
            rw [hr] at h
            cases h
            simp [build_inbound_message, ih (i + 1) msgs2 hr]

/-! ## C1 — one envelope per route -/

/-- C1 (amended): when the inbound publish loop completes, it publishes
exactly one envelope per resolved destination, each envelope's
`metadata.routing_key` equal to its destination's app name. The routing
keys are pairwise distinct whenever every recognized app-name resolves
(the recognized-app set is deduplicated); when several recognized
app-names fail to resolve, their envelopes all carry the routing-key
"default", so pairwise distinctness fails in the fallback case (see the
counterexample). -/
theorem inbound_one_envelope_per_route (w : InboundWorld) (email : Email)
    (uuidf : Nat → Str) (now : Nat) (cfg : MailflowConfig)
    (msgs : List InboundMessage)
    (h : inboundSendLoop w email uuidf now 0
        (MailflowRouter.route cfg email) = .ok msgs) :
    msgs.map (fun m => m.metadata.routing_key) =
      (MailflowRouter.route cfg email).map (fun r => r.app_name) ∧
    msgs.length = (MailflowRouter.route cfg email).length ∧
    ((∀ a ∈ extract_app_names email,
        ∃ q, QueueResolver.resolve cfg a = .ok q) →
      (msgs.map (fun m => m.metadata.routing_key)).Nodup) := by
  have hmap := inboundSendLoop_ok_map w email uuidf now
    (MailflowRouter.route cfg email) 0 msgs h
  refine ⟨hmap, ?_, ?_⟩
  · have := congrArg List.length hmap
    simpa using this
  · intro hres
    rw [hmap]
    unfold MailflowRouter.route
    by_cases he : (extract_app_names email).isEmpty = true
    · rw [if_pos he]
      simp
    · rw [if_neg he, List.map_map]
      have hcong : (extract_app_names email).map ((fun r => r.app_name) ∘
          (fun app_name =>
            match QueueResolver.resolve cfg app_name with
            | .ok queue_url => RouteDestination.mk app_name queue_url
            | .error _ =>
              RouteDestination.mk (("default").toList) cfg.default_queue)) =
          (extract_app_names email).map id := by
        apply List.map_congr_left
        intro a ha
        obtain ⟨q, hq⟩ := hres a ha
        simp [hq]
      rw [hcong, List.map_id]
      exact List.nodup_dedup _

/-- Configuration with no routes: every recognized app-name falls back to
the default queue. -/
def cfgNoRoutes : MailflowConfig :=
  { version := ("1.0").toList
    domains := [("d.com").toList]
    routing := []
    default_queue := ("https://sqs.example.com/default").toList
    unknown_queue := ("https://sqs.example.com/unknown").toList
    attachments := ⟨("bkt").toList, 3600, 1024, [], [], false⟩
    security := ⟨false, false, false, 100⟩
    retention := ⟨7, 30, 30⟩ }

/-- An email addressed to two distinct app addresses. -/
def emailTwoApps : Email :=
  { message_id := ("m-1").toList
    from_addr := ⟨("sender@example.com").toList, none⟩
    to_addrs := [⟨("_a@d.com").toList, none⟩, ⟨("_b@d.com").toList, none⟩]
    cc := []
    bcc := []
    reply_to := none
    subject := ("Test").toList
    body := ⟨none, none⟩
    attachments := []
    headers := ⟨none, [], []⟩
    received_at := 0
    attachments_data := [] }

/-- A world in which every queue exists and every publish succeeds. -/
def worldAllOk : InboundWorld :=
  { queueExists := fun _ => .ok true
    sendMessage := fun _ => .ok (("mid").toList) }

/-- C1 counterexample: with no configured routes, the two recognized
app-names "a" and "b" both fail to resolve and fall back to the default
queue, so the dispatcher publishes 2 envelopes whose routing keys are
both "default" — not pairwise distinct, refuting the claim's
parenthetical fallback case. -/
theorem inbound_routing_keys_not_distinct :
    (MailflowRouter.route cfgNoRoutes emailTwoApps).length = 2 ∧
    (inboundSendLoop worldAllOk emailTwoApps (fun _ => ("u").toList) 0 0
        (MailflowRouter.route cfgNoRoutes emailTwoApps)).map
      (fun msgs => msgs.map (fun m => m.metadata.routing_key)) =
      .ok [("default").toList, ("default").toList] ∧
    ¬ ([("default").toList, ("default").toList] : List Str).Nodup := by
  refine ⟨by decide, by rfl, by decide⟩

/-- Configuration with a single enabled route for "app1". -/
def cfgApp1 : MailflowConfig :=
  { version := ("1.0").toList
    domains := [("acme.com").toList]
    routing := [(("app1").toList,
      ⟨("https://sqs.example.com/app1").toList, true, []⟩)]
    default_queue := ("https://sqs.example.com/default").toList
    unknown_queue := ("https://sqs.example.com/unknown").toList
    attachments := ⟨("bkt").toList, 3600, 1024, [], [], false⟩
    security := ⟨false, false, false, 100⟩
    retention := ⟨7, 30, 30⟩ }

/-- An email addressed to `_app1@acme.com`. -/
def emailApp1 : Email :=
  { message_id := ("m-2").toList
    from_addr := ⟨("sender@example.com").toList, none⟩
    to_addrs := [⟨("_app1@acme.com").toList, none⟩]
    cc := []
    bcc := []
    reply_to := none
    subject := ("Test").toList
    body := ⟨none, none⟩
    attachments := []
    headers := ⟨none, [], []⟩
    received_at := 0
    attachments_data := [] }

/-- Witness for C1 at a concrete input: one route for `_app1@acme.com`,
one envelope, routing key "app1", distinct. -/
theorem inbound_one_envelope_witness :
    ([build_inbound_message emailApp1 (("app1").toList)
        (("u").toList) 7].map (fun m => m.metadata.routing_key)).Nodup ∧
    [build_inbound_message emailApp1 (("app1").toList)
        (("u").toList) 7].length =
      (MailflowRouter.route cfgApp1 emailApp1).length := by
  have h := inbound_one_envelope_per_route worldAllOk emailApp1
    (fun _ => ("u").toList) 7 cfgApp1
    [build_inbound_message emailApp1 (("app1").toList) (("u").toList) 7]
    (by rfl)
  refine ⟨h.2.2 ?_, h.2.1⟩
  intro a ha
  have hnames : extract_app_names emailApp1 = [("app1").toList] := by decide
  rw [hnames] at ha
  have ha' : a = ("app1").toList := by simpa using ha
  subst ha'
  exact ⟨("https://sqs.example.com/app1").toList, by decide⟩

/-! ## Outbound dispatcher — src/src/handlers/outbound.rs

`process_record` is modelled as a function of the responses of its
external collaborators (idempotency store, SES relay, composer, queue),
producing the result together with the trace of external calls in
program order. Metric emissions (which touch no shared state relevant to
the claims) are elided. -/

/-- One external call made by `process_record`, with the arguments the
source passes. -/
inductive OutboundEvent where
  | isDuplicateCall (correlation_id : Str)
  | deleteMessageCall (receipt_handle : Str)
  | verifySenderCall (address : Str)
  | getSendQuotaCall
  | composeCall
  | sendRawEmailCall (from_address : Str) (recipients : List Str)
  | recordIdempotencyCall (correlation_id : Str)
deriving DecidableEq

/-- The responses of the external collaborators consumed by one run of
`process_record`. `parseRes` stands for `serde_json::from_str` on the
record body; `quotaRes` is `(sent_last_24_hours, max_24_hour_send)`. -/
structure OutboundWorld where
  parseRes : Option OutboundMessage
  isDuplicateRes : Except MailflowError Bool
  verifySenderRes : Except MailflowError Bool
  quotaRes : Except MailflowError (Nat × Nat)
  composeRes : Except MailflowError (List Nat)
  sendRawRes : Except MailflowError Str
  recordRes : Except MailflowError Unit
  deleteRes : Except MailflowError Unit

/-- `SqsRecord` from the event model (the fields `process_record` uses). -/
structure SqsRecord where
  message_id : Str
  receipt_handle : Str
  body : Str
deriving DecidableEq

/-- The envelope recipients collected in step 6 of `process_record`:
all to, cc and bcc addresses, in that order. -/
def outboundRecipients (email : OutboundEmail) : List Str :=
  (email.to_addrs ++ email.cc ++ email.bcc).map (fun a => a.address)

/-- `process_record` from src/src/handlers/outbound.rs: parse and
validate, check idempotency (skipping with a queue delete on duplicates),
verify the sender, check the send quota, compose, send via SES, record
idempotency, delete from the queue. Returns the result and the ordered
trace of external calls. -/
def outbound_process_record (w : OutboundWorld) (record : SqsRecord) :
    Except MailflowError Unit × List OutboundEvent :=
  match w.parseRes with
  | none =>
    (.error (.Validation ("Invalid outbound message JSON").toList), [])
  | some msg =>
    match validate_outbound_message msg with
    | .error e => (.error e, [])
    | .ok () =>
      match w.isDuplicateRes with
      | .error e => (.error e, [.isDuplicateCall msg.correlation_id])
      | .ok true =>
        match w.deleteRes with
        | .error e =>
          (.error e, [.isDuplicateCall msg.correlation_id,
            .deleteMessageCall record.receipt_handle])
        | .ok () =>
          (.ok (), [.isDuplicateCall msg.correlation_id,
            .deleteMessageCall record.receipt_handle])
      | .ok false =>
        match w.verifySenderRes with
        | .error e =>
          (.error e, [.isDuplicateCall msg.correlation_id,
            .verifySenderCall msg.email.from_addr.address])
        | .ok false =>
          (.error (.Validation (("Sender address not verified in SES: ").toList
              ++ msg.email.from_addr.address)),
            [.isDuplicateCall msg.correlation_id,
             .verifySenderCall msg.email.from_addr.address])
        | .ok true =>
          match w.quotaRes with
          | .error e =>
            (.error e, [.isDuplicateCall msg.correlation_id,
              .verifySenderCall msg.email.from_addr.address,
              .getSendQuotaCall])
          | .ok (sent_last_24_hours, max_24_hour_send) =>
            if max_24_hour_send ≤ sent_last_24_hours then
              (.error (.Ses ("Daily sending quota exceeded").toList),
                [.isDuplicateCall msg.correlation_id,
                 .verifySenderCall msg.email.from_addr.address,
                 .getSendQuotaCall])
            else
              match w.composeRes with
              | .error e =>
                (.error e, [.isDuplicateCall msg.correlation_id,
                  .verifySenderCall msg.email.from_addr.address,
                  .getSendQuotaCall, .composeCall])
              | .ok _raw_email =>
                match w.sendRawRes with
                | .error e =>
                  (.error e, [.isDuplicateCall msg.correlation_id,
                    .verifySenderCall msg.email.from_addr.address,
                    .getSendQuotaCall, .composeCall,
                    .sendRawEmailCall msg.email.from_addr.address
                      (outboundRecipients msg.email)])
                | .ok _ses_message_id =>
                  match w.recordRes with
                  | .error e =>
                    (.error e, [.isDuplicateCall msg.correlation_id,
                      .verifySenderCall msg.email.from_addr.address,
                      .getSendQuotaCall, .composeCall,
                      .sendRawEmailCall msg.email.from_addr.address
                        (outboundRecipients msg.email),
                      .recordIdempotencyCall msg.correlation_id])
                  | .ok () =>
                    match w.deleteRes with
                    | .error e =>
                      (.error e, [.isDuplicateCall msg.correlation_id,
                        .verifySenderCall msg.email.from_addr.address,
                        .getSendQuotaCall, .composeCall,
                        .sendRawEmailCall msg.email.from_addr.address
                          (outboundRecipients msg.email),
                        .recordIdempotencyCall msg.correlation_id,
                        .deleteMessageCall record.receipt_handle])
                    | .ok () =>
                      (.ok (), [.isDuplicateCall msg.correlation_id,
                        .verifySenderCall msg.email.from_addr.address,
                        .getSendQuotaCall, .composeCall,
                        .sendRawEmailCall msg.email.from_addr.address
                          (outboundRecipients msg.email),
                        .recordIdempotencyCall msg.correlation_id,
                        .deleteMessageCall record.receipt_handle])

/-! ## C2 — send before idempotency record; no send on duplicates -/

/-- C2: in every run of the outbound `process_record`, whenever the
idempotency record write for the message's correlation-id appears in the
trace, the relay send-raw-email call appears strictly before it; and
when the idempotency store already contains the correlation-id
(`is_duplicate` returns true), no relay send occurs at all. -/
theorem outbound_send_before_record (w : OutboundWorld) (record : SqsRecord)
    (msg : OutboundMessage) (h : w.parseRes = some msg) :
    ((OutboundEvent.recordIdempotencyCall msg.correlation_id ∈
        (outbound_process_record w record).2) →
      ∃ i j : Nat, i < j ∧
        (outbound_process_record w record).2[i]? =
          some (OutboundEvent.sendRawEmailCall msg.email.from_addr.address
            (outboundRecipients msg.email)) ∧
        (outbound_process_record w record).2[j]? =
          some (OutboundEvent.recordIdempotencyCall msg.correlation_id)) ∧
    (w.isDuplicateRes = .ok true →
      ∀ fa rcpts,
        OutboundEvent.sendRawEmailCall fa rcpts ∉
          (outbound_process_record w record).2) := by
  obtain ⟨parseRes, dupRes, verifyRes, quotaRes, composeRes, sendRes,
    recRes, delRes⟩ := w
  dsimp only at h ⊢
  subst h
  simp only [outbound_process_record]
  cases hv : validate_outbound_message msg with
  | error e =>
    exact ⟨fun hmem => absurd hmem (by simp), fun _ fa r => by simp⟩
  | ok u =>
    cases u
    cases dupRes with
    | error e =>
      exact ⟨fun hmem => absurd hmem (by simp),
        fun hc fa r => absurd hc (by simp)⟩
    | ok b =>
      cases b with
      | true =>
        cases delRes with
        | error e =>
          exact ⟨fun hmem => absurd hmem (by simp), fun _ fa r => by simp⟩
        | ok u2 =>
          cases u2
          exact ⟨fun hmem => absurd hmem (by simp), fun _ fa r => by simp⟩
      | false =>
        cases verifyRes with
        | error e =>
          exact ⟨fun hmem => absurd hmem (by simp),
            fun hc fa r => absurd hc (by simp)⟩
        | ok vb =>
          cases vb with
          | false =>
            exact ⟨fun hmem => absurd hmem (by simp),
              fun hc fa r => absurd hc (by simp)⟩
          | true =>
            cases quotaRes with
            | error e =>
              exact ⟨fun hmem => absurd hmem (by simp),
                fun hc fa r => absurd hc (by simp)⟩
            | ok quota =>
              obtain ⟨sent24, max24⟩ := quota
              dsimp only
              by_cases hlim : max24 ≤ sent24
              · rw [if_pos hlim]
                exact ⟨fun hmem => absurd hmem (by simp),
                  fun hc fa r => absurd hc (by simp)⟩
              · rw [if_neg hlim]
                cases composeRes with
                | error e =>
                  exact ⟨fun hmem => absurd hmem (by simp),
                    fun hc fa r => absurd hc (by simp)⟩
                | ok raw =>
                  cases sendRes with
                  | error e =>
                    exact ⟨fun hmem => absurd hmem (by simp),
                      fun hc fa r => absurd hc (by simp)⟩
                  | ok sid =>
                    cases recRes with
                    | error e =>
                      exact ⟨fun _ => ⟨4, 5, by omega, rfl, rfl⟩,
                        fun hc fa r => absurd hc (by simp)⟩
                    | ok u3 =>
                      cases u3
                      cases delRes with
                      | error e =>
                        exact ⟨fun _ => ⟨4, 5, by omega, rfl, rfl⟩,
                          fun hc fa r => absurd hc (by simp)⟩
                      | ok u4 =>
                        cases u4
                        exact ⟨fun _ => ⟨4, 5, by omega, rfl, rfl⟩,
                          fun hc fa r => absurd hc (by simp)⟩

/-- Witness for C2 at a concrete world: every response succeeds and the
store does not contain the correlation-id; the send call sits at index 4
of the trace, directly before the idempotency record at index 5. -/
theorem outbound_send_before_record_witness :
    ∃ i j : Nat, i < j ∧
      (outbound_process_record
        { parseRes := some ccUncheckedMessage
          isDuplicateRes := .ok false
          verifySenderRes := .ok true
          quotaRes := .ok (0, 200)
          composeRes := .ok [1]
          sendRawRes := .ok (("sid").toList)
          recordRes := .ok ()
          deleteRes := .ok () }
        ⟨("mid").toList, ("rh").toList, ("body").toList⟩).2[i]? =
        some (OutboundEvent.sendRawEmailCall
          ccUncheckedMessage.email.from_addr.address
          (outboundRecipients ccUncheckedMessage.email)) ∧
      (outbound_process_record
        { parseRes := some ccUncheckedMessage
          isDuplicateRes := .ok false
          verifySenderRes := .ok true
          quotaRes := .ok (0, 200)
          composeRes := .ok [1]
          sendRawRes := .ok (("sid").toList)
          recordRes := .ok ()
          deleteRes := .ok () }
        ⟨("mid").toList, ("rh").toList, ("body").toList⟩).2[j]? =
        some (OutboundEvent.recordIdempotencyCall
          ccUncheckedMessage.correlation_id) :=
  (outbound_send_before_record
    { parseRes := some ccUncheckedMessage
      isDuplicateRes := .ok false
      verifySenderRes := .ok true
      quotaRes := .ok (0, 200)
      composeRes := .ok [1]
      sendRawRes := .ok (("sid").toList)
      recordRes := .ok ()
      deleteRes := .ok () }
    ⟨("mid").toList, ("rh").toList, ("body").toList⟩
    ccUncheckedMessage rfl).1 (by decide)

/-! ## MIME composition headers — src/src/email/composer.rs

`LettreEmailComposer::compose` hands From/To/Cc/Bcc/Reply-To to the
`lettre` crate's message builder and serializes with
`lettre::Message::formatted()`, whose source is not part of this
repository. The header section of the serialized message is therefore
modelled from the spec. -/

/-- Modelled from the spec: the header section produced by `lettre`'s
`Message::formatted()` for the builder calls made in
`LettreEmailComposer::compose` (src/src/email/composer.rs lines
105–141). Spec §4.6: "Headers From/To/Cc/Reply-To are set from the
request; BCC addresses are NOT written to headers (relay adds them only
as envelope recipients)." Each entry is a (header-name, header-value)
pair; address lists produce one header per address, as the repeated
`.to(...)` / `.cc(...)` builder calls do. -/
def composeHeaders (email : OutboundEmail) : List (Str × Str) :=
  [(("From").toList, email.from_addr.address),
   (("Subject").toList, email.subject)] ++
  email.to_addrs.map (fun a => ((("To").toList : Str), a.address)) ++
  email.cc.map (fun a => ((("Cc").toList : Str), a.address)) ++
  (match email.reply_to with
   | some a => [((("Reply-To").toList : Str), a.address)]
   | none => [])

/-! ## C4 — no Bcc header; Bcc present among envelope recipients -/

/-- C4: for every OutboundRequest with a non-empty bcc list, the header
section of the composed message carries no Bcc header (spec-modelled
serializer, see `composeHeaders`), while the envelope recipients handed
to the relay by `process_record` (src/src/handlers/outbound.rs lines
160–176) are exactly the to, cc and bcc addresses in order — in
particular every bcc address is an envelope recipient. -/
theorem compose_no_bcc_header (email : OutboundEmail)
    (hbcc : email.bcc ≠ []) :
    (∀ h ∈ composeHeaders email, h.1 ≠ ("Bcc").toList) ∧
    outboundRecipients email =
      (email.to_addrs ++ email.cc ++ email.bcc).map (fun a => a.address) ∧
    ∀ a ∈ email.bcc, a.address ∈ outboundRecipients email := by
  refine ⟨?_, rfl, ?_⟩
  · intro h hmem
    unfold composeHeaders at hmem
    simp only [List.mem_append, List.mem_cons, List.mem_map,
      List.not_mem_nil, or_false] at hmem
    rcases hmem with (((rfl | rfl) | ⟨a, _, rfl⟩) | ⟨a, _, rfl⟩) | hrt
    · show ("From").toList ≠ ("Bcc").toList
      decide
    · show ("Subject").toList ≠ ("Bcc").toList
      decide
    · show ("To").toList ≠ ("Bcc").toList
      decide
    · show ("Cc").toList ≠ ("Bcc").toList
      decide
    · cases hr : email.reply_to with
      | some a2 =>
        rw [hr] at hrt
        simp only [List.mem_cons, List.not_mem_nil, or_false] at hrt
        rw [hrt]
        show ("Reply-To").toList ≠ ("Bcc").toList
        decide
      | none =>
        rw [hr] at hrt
        simp at hrt
  · intro a ha
    unfold outboundRecipients
    exact List.mem_map_of_mem _ (by simp [ha])

/-- Witness for C4 at a concrete request: one bcc recipient, no Bcc
header, and the bcc address among the envelope recipients. -/
theorem compose_no_bcc_header_witness :
    (∀ h ∈ composeHeaders
        { ccUncheckedMessage.email with
          bcc := [⟨("hidden@example.com").toList, none⟩] },
      h.1 ≠ ("Bcc").toList) ∧
    (("hidden@example.com").toList) ∈ outboundRecipients
      { ccUncheckedMessage.email with
        bcc := [⟨("hidden@example.com").toList, none⟩] } := by
  have h := compose_no_bcc_header
    { ccUncheckedMessage.email with
      bcc := [⟨("hidden@example.com").toList, none⟩] }
    (by decide)
  exact ⟨h.1, h.2.2 ⟨("hidden@example.com").toList, none⟩ (by decide)⟩

/-! ## PII redaction — src/src/utils/logging.rs

`EMAIL_PATTERN` is `\b[A-Za-z0-9._%+-]+@[A-Za-z0-9.-]+\.[A-Z|a-z]{2,}\b`
(note: the class `[A-Z|a-z]` contains the literal `'|'`). `redact_email`
replaces every match, keeping the text from the first `'@'` of the match
and masking the local part as `***`. The regex engine's leftmost,
greedy-with-backtracking semantics for this concrete pattern are encoded
below: the local-part run is forced (its successor must be the `'@'`),
while the domain run and the trailing class are searched longest-first. -/

/-- The `[A-Z|a-z]` class of `EMAIL_PATTERN`: ASCII letters and `'|'`. -/
def isTldChar (c : Char) : Bool := c.isAlpha || c = '|'

/-- Word characters for `\b` (`[A-Za-z0-9_]`; inputs are ASCII). -/
def isWordChar (c : Char) : Bool := c.isAlphanum || c = '_'

/-- Whether the optional character on one side of a position is a word
character (absent counts as non-word). -/
def wordAt : Option Char → Bool
  | none => false
  | some c => isWordChar c

/-- `\b` between two optional characters. -/
def isBoundary (l r : Option Char) : Bool := wordAt l != wordAt r

/-- A separator character: outside every character class of
`EMAIL_PATTERN` (local `[A-Za-z0-9._%+-]`, `'@'`, domain `[A-Za-z0-9.-]`
⊆ local, trailing `[A-Z|a-z]` ⊆ local ∪ `'|'`). No match of the pattern
can contain such a character, and it is a non-word character, so an
occurrence directly after one sits on a word boundary. Spaces, colons,
commas, quotes and most punctuation qualify. -/
def isSepChar (c : Char) : Bool :=
  !(isLocalChar c) && !(c == '@') && !(c == '|')

lemma dom_sub_local (c : Char) (h : isDomainChar c = true) :
    isLocalChar c = true := by
  simp only [isDomainChar, Bool.or_eq_true, decide_eq_true_eq] at h
  rcases h with (h | h) | h <;> simp [isLocalChar, h]

lemma tld_imp_local_or_bar (c : Char) (h : isTldChar c = true) :
    isLocalChar c = true ∨ c = '|' := by
  simp only [isTldChar, Bool.or_eq_true, decide_eq_true_eq] at h
  rcases h with h | h
  · exact Or.inl (by simp [isLocalChar, Char.isAlphanum, h])
  · exact Or.inr h

lemma word_sub_local (c : Char) (h : isWordChar c = true) :
    isLocalChar c = true := by
  simp only [isWordChar, Bool.or_eq_true, decide_eq_true_eq] at h
  rcases h with h | h <;> simp [isLocalChar, h]

lemma sep_elim (c : Char) (h : isSepChar c = true) :
    isLocalChar c = false ∧ c ≠ '@' ∧ c ≠ '|' := by
  simp only [isSepChar, Bool.and_eq_true, Bool.not_eq_true',
    beq_eq_false_iff_ne, ne_eq] at h
  exact ⟨h.1.1, h.1.2, h.2⟩

lemma sep_not_domain (c : Char) (h : isSepChar c = true) :
    isDomainChar c = false := by
  rcases hd : isDomainChar c with _ | _
  · rfl
  · exact absurd (dom_sub_local c hd) (by simp [(sep_elim c h).1])

lemma sep_not_tld (c : Char) (h : isSepChar c = true) :
    isTldChar c = false := by
  rcases ht : isTldChar c with _ | _
  · rfl
  · rcases tld_imp_local_or_bar c ht with hl | hb
    · exact absurd hl (by simp [(sep_elim c h).1])
    · exact absurd hb (sep_elim c h).2.2

lemma sep_not_word (c : Char) (h : isSepChar c = true) :
    isWordChar c = false := by
  rcases hw : isWordChar c with _ | _
  · rfl
  · exact absurd (word_sub_local c hw) (by simp [(sep_elim c h).1])

/-- Greedy-with-backtracking search for `[A-Z|a-z]{2,}\b` at the start of
`rest`: `m` counts down from the maximal class run; the first length ≥ 2
whose following position is a word boundary wins. -/
def tldSearch (rest : Str) : Nat → Option Nat
  | 0 => none
  | 1 => none
  | m + 2 =>
    if isBoundary rest[m + 1]? rest[m + 2]? then some (m + 2)
    else tldSearch rest (m + 1)

/-- Greedy-with-backtracking search for `[A-Za-z0-9.-]+\.[A-Z|a-z]{2,}\b`
at the start of `rest`: the domain-run length `j` counts down from the
maximal domain-class run; position `j` must hold the `'.'`, and the tail
class is then searched. Returns `(domain-run length, tail length)`. -/
def domSearch (rest : Str) : Nat → Option (Nat × Nat)
  | 0 => none
  | j + 1 =>
    if rest[j + 1]? = some '.' then
      match tldSearch (rest.drop (j + 2))
          ((rest.drop (j + 2)).takeWhile isTldChar).length with
      | some m => some (j + 1, m)
      | none => domSearch rest j
    else domSearch rest j

/-- Match of `EMAIL_PATTERN` anchored at the start of `l`, where `prev`
is the character before `l` (for the leading `\b`). Returns the match
length. The local-part run is the maximal `[A-Za-z0-9._%+-]` run: the
pattern then requires `'@'`, which is outside the class, so no shorter
run can match. -/
def matchAt (prev : Option Char) (l : Str) : Option Nat :=
  if isBoundary prev l.head? then
    let localRun := l.takeWhile isLocalChar
    if localRun.length = 0 then none
    else
      match l.drop localRun.length with
      | '@' :: rest2 =>
        match domSearch rest2 ((rest2.takeWhile isDomainChar).length) with
        | some (j, m) => some (localRun.length + 1 + j + 1 + m)
        | none => none
      | _ => none
  else none

/-- The `replace_all` scan of `redact_email`: characters are copied until
a match; a match of length `n` (always ≥ 1: it contains the `'@'`) is
replaced by `***` followed by the match's text from its first `'@'` (the
code falls back to `***@***` when the match holds no `'@'`, which cannot
happen for this pattern) and scanning resumes after the match in the
original text — `rest.drop (n - 1)` is `(c :: rest).drop n` there. The
`fuel` argument only bounds the recursion: every step consumes at least
one character, so `redact_email` passes the text's length and the
zero-fuel fallback is never reached. -/
def scanRedactGo : Nat → Option Char → Str → Str
  | _, _, [] => []
  | 0, _, l => l
  | fuel + 1, prev, c :: rest =>
    match matchAt prev (c :: rest) with
    | some n =>
      let matched := (c :: rest).take n
      let tail := matched.dropWhile (fun ch => !(ch == '@'))
      (("***").toList ++
        (if tail.isEmpty then ("@***").toList else tail)) ++
        scanRedactGo fuel matched.getLast? (rest.drop (n - 1))
    | none => c :: scanRedactGo fuel (some c) rest

/-- `redact_email` from src/src/utils/logging.rs. -/
def redact_email (text : Str) : Str := scanRedactGo text.length none text

/-- `sanitize_error_message` from src/src/handlers/common.rs: the error's
`Display` rendering passed through `redact_email`. -/
def sanitize_error_message (error : MailflowError) : Str :=
  redact_email error.display

/-- The DLQ envelope built by `send_error_to_dlq`
(src/src/handlers/common.rs); the JSON `context` value is carried opaquely
and the timestamp as `Nat`. -/
structure DlqPayload where
  error : Str
  errorType : Str
  handler : Str
  context : Str
  timestamp : Nat
deriving DecidableEq

/-- The payload construction inside `send_error_to_dlq`. -/
def build_dlq_payload (error : MailflowError) (handler : Str)
    (context : Str) (now : Nat) : DlqPayload :=
  { error := sanitize_error_message error
    errorType := if error.is_retriable then ("retriable").toList
      else ("permanent").toList
    handler := handler
    context := context
    timestamp := now }

lemma takeWhile_append_of_all (p : Char → Bool) (a r : Str)
    (h : ∀ c ∈ a, p c = true) :
    (a ++ r).takeWhile p = a ++ r.takeWhile p := by
  induction a with
  | nil => rfl
  | cons c a' ih =>
    have hc : p c = true := h c (by simp)
    have ih' := ih (fun c2 hc2 => h c2 (by simp [hc2]))
    simp [List.takeWhile_cons, hc, ih']

lemma takeWhile_head_false (p : Char → Bool) (b : Char) (r : Str)
    (h : p b = false) : (b :: r).takeWhile p = [] := by
  simp [List.takeWhile_cons, h]

lemma dropWhile_append_stop (p : Char → Bool) (a : Str) (b : Char) (r : Str)
    (h : ∀ c ∈ a, p c = true) (hb : p b = false) :
    (a ++ b :: r).dropWhile p = b :: r := by
  induction a with
  | nil => simp [List.dropWhile_cons, hb]
  | cons c a' ih =>
    simp only [List.cons_append, List.dropWhile_cons, h c (by simp),
      if_true]
    exact ih (fun c2 hc2 => h c2 (by simp [hc2]))

lemma getLast?_drop_of_lt (l : Str) (n : Nat) (h : n < l.length) :
    (l.drop n).getLast? = l.getLast? := by
  have hne : l.drop n ≠ [] := by
    intro hc
    have := congrArg List.length hc
    simp at this
    omega
  conv_rhs => rw [← List.take_append_drop n l]
  exact (List.getLast?_append_of_ne_nil (l.take n) hne).symm

lemma tldSearch_inv (rest : Str) :
    ∀ mm m, tldSearch rest mm = some m → 2 ≤ m ∧ m ≤ mm := by
  intro mm
  induction mm with
  | zero =>
    intro m h
    simp [tldSearch] at h
  | succ k ih =>
    intro m h
    cases k with
    | zero => simp [tldSearch] at h
    | succ k2 =>
      simp only [tldSearch] at h
      split at h
      · cases h
        omega
      · have := ih m h
        omega

lemma domSearch_inv (rest : Str) :
    ∀ k j m, domSearch rest k = some (j, m) →
      j ≤ k ∧ rest[j]? = some '.' ∧ 2 ≤ m ∧
        m ≤ ((rest.drop (j + 1)).takeWhile isTldChar).length := by
  intro k
  induction k with
  | zero =>
    intro j m h
    simp [domSearch] at h
  | succ k2 ih =>
    intro j m h
    simp only [domSearch] at h
    split at h
    next hdot =>
      split at h
      next m2 htld =>
        cases h
        have hinv := tldSearch_inv _ _ _ htld
        exact ⟨by omega, hdot, hinv.1, hinv.2⟩
      next htld =>
        have hres := ih j m h
        exact ⟨by omega, hres.2.1, hres.2.2.1, hres.2.2.2⟩
    next hdot =>
      have hres := ih j m h
      exact ⟨by omega, hres.2.1, hres.2.2.1, hres.2.2.2⟩

/-- Every character of a match of `EMAIL_PATTERN` lies in the pattern's
character classes — local-part class (which contains the domain class and
the letters), `'@'`, or `'|'` — and a match is non-empty. -/
lemma matchAt_chars (p : Option Char) (l : Str) (n : Nat)
    (h : matchAt p l = some n) :
    1 ≤ n ∧ ∀ i, i < n → ∃ c, l[i]? = some c ∧
      (isLocalChar c = true ∨ c = '@' ∨ c = '|') := by
  unfold matchAt at h
  split at h
  · dsimp only at h
    by_cases hlr0 : (l.takeWhile isLocalChar).length = 0
    · rw [if_pos hlr0] at h
      cases h
    · rw [if_neg hlr0] at h
      split at h
      next rest2 heq =>
        split at h
        next j m hds =>
          cases h
          obtain ⟨hjk, hdot, hm2, hmle⟩ := domSearch_inv rest2 _ j m hds
          set lr := (l.takeWhile isLocalChar).length with hlrdef
          have hrest2 : ∀ i2, rest2[i2]? = l[lr + 1 + i2]? := by
            intro i2
            have h1 : (l.drop lr)[1 + i2]? = l[lr + (1 + i2)]? :=
              List.getElem?_drop l lr (1 + i2)
            rw [heq] at h1
            rw [show 1 + i2 = i2 + 1 by omega] at h1
            rw [List.getElem?_cons_succ] at h1
            rw [h1]
            congr 1
            omega
          refine ⟨by omega, ?_⟩
          intro i hi
          by_cases hiL : i < lr
          · obtain ⟨r, hr⟩ := List.takeWhile_prefix (p := isLocalChar) (l := l)
            have hil : i < (l.takeWhile isLocalChar).length := hiL
            have hgl : l[i]? = (l.takeWhile isLocalChar)[i]? := by
              conv_lhs => rw [← hr]
              exact List.getElem?_append_left hil
            refine ⟨(l.takeWhile isLocalChar)[i], ?_, ?_⟩
            · rw [hgl]
              exact List.getElem?_eq_getElem hil
            · exact Or.inl (List.mem_takeWhile_imp (List.getElem_mem hil))
          · by_cases hiAt : i = lr
            · refine ⟨'@', ?_, Or.inr (Or.inl rfl)⟩
              have h1 : (l.drop lr)[0]? = l[lr + 0]? :=
                List.getElem?_drop l lr 0
              rw [heq] at h1
              rw [hiAt]
              simpa using h1.symm
            · have hi2 : i - lr - 1 < 1 + j + m := by omega
              have hidx : l[i]? = rest2[i - lr - 1]? := by
                rw [hrest2 (i - lr - 1)]
                congr 1
                omega
              by_cases hiD : i - lr - 1 < j
              · obtain ⟨r, hr⟩ :=
                  List.takeWhile_prefix (p := isDomainChar) (l := rest2)
                have hil : i - lr - 1 <
                    (rest2.takeWhile isDomainChar).length := by omega
                have hgl : rest2[i - lr - 1]? =
                    (rest2.takeWhile isDomainChar)[i - lr - 1]? := by
                  conv_lhs => rw [← hr]
                  exact List.getElem?_append_left hil
                refine ⟨(rest2.takeWhile isDomainChar)[i - lr - 1], ?_, ?_⟩
                · rw [hidx, hgl]
                  exact List.getElem?_eq_getElem hil
                · exact Or.inl (dom_sub_local _
                    (List.mem_takeWhile_imp (List.getElem_mem hil)))
              · by_cases hiDot : i - lr - 1 = j
                · refine ⟨'.', ?_, Or.inl (by decide)⟩
                  rw [hidx, hiDot]
                  exact hdot
                · have hi3 : i - lr - 1 - j - 1 < m := by omega
                  obtain ⟨r, hr⟩ := List.takeWhile_prefix (p := isTldChar)
                    (l := rest2.drop (j + 1))
                  have hil : i - lr - 1 - j - 1 <
                      ((rest2.drop (j + 1)).takeWhile isTldChar).length := by
                    omega
                  have hgl : (rest2.drop (j + 1))[i - lr - 1 - j - 1]? =
                      ((rest2.drop (j + 1)).takeWhile
                        isTldChar)[i - lr - 1 - j - 1]? := by
                    conv_lhs => rw [← hr]
                    exact List.getElem?_append_left hil
                  have hback : rest2[i - lr - 1]? =
                      (rest2.drop (j + 1))[i - lr - 1 - j - 1]? := by
                    rw [List.getElem?_drop]
                    congr 1
                    omega
                  refine ⟨((rest2.drop (j + 1)).takeWhile
                      isTldChar)[i - lr - 1 - j - 1], ?_, ?_⟩
                  · rw [hidx, hback, hgl]
                    exact List.getElem?_eq_getElem hil
                  · rcases tld_imp_local_or_bar _
                      (List.mem_takeWhile_imp (List.getElem_mem hil)) with
                      hl | hb
                    · exact Or.inl hl
                    · exact Or.inr (Or.inr hb)
        next hds => cases h
      next x heq => cases h
  · cases h

lemma scanRedactGo_match_step (f : Nat) (p : Option Char) (c : Char)
    (rest : Str) (n : Nat) (h : matchAt p (c :: rest) = some n) :
    scanRedactGo (f + 1) p (c :: rest) =
      (("***").toList ++
        (if (((c :: rest).take n).dropWhile
            (fun ch => !(ch == '@'))).isEmpty then ("@***").toList
         else ((c :: rest).take n).dropWhile (fun ch => !(ch == '@')))) ++
      scanRedactGo f ((c :: rest).take n).getLast? (rest.drop (n - 1)) := by
  simp only [scanRedactGo, h]

/-- Scanning a block that ends with a separator character: no match can
contain the separator, so the scan eventually emits it and arrives at the
remainder with the separator as the previous character, having consumed
at most one unit of fuel per character. -/
lemma scan_reach (rest : Str) (b : Char) (hb : isSepChar b = true) :
    ∀ (fuel : Nat) (l1 : Str) (p : Option Char),
      l1 ≠ [] → l1.getLast? = some b →
      (l1 ++ rest).length ≤ fuel →
      ∃ u fuel2, rest.length ≤ fuel2 ∧
        scanRedactGo fuel p (l1 ++ rest) =
          u ++ scanRedactGo fuel2 (some b) rest := by
  intro fuel
  induction fuel with
  | zero =>
    intro l1 p h1 _ hlen
    cases l1 with
    | nil => exact absurd rfl h1
    | cons c t => simp at hlen
  | succ f ih =>
    intro l1 p h1 hlast hlen
    obtain ⟨c, l1', rfl⟩ : ∃ c l1', l1 = c :: l1' := by
      cases l1 with
      | nil => exact absurd rfl h1
      | cons c t => exact ⟨c, t, rfl⟩
    have hcons : (c :: l1') ++ rest = c :: (l1' ++ rest) := rfl
    cases hm : matchAt p (c :: (l1' ++ rest)) with
    | none =>
      have hstep : scanRedactGo (f + 1) p (c :: (l1' ++ rest)) =
          c :: scanRedactGo f (some c) (l1' ++ rest) := by
        simp only [scanRedactGo, hm]
      by_cases hl1e : l1' = []
      · have hcb : c = b := by
          rw [hl1e] at hlast
          simpa using hlast
        subst hcb
        refine ⟨[c], f, ?_, ?_⟩
        · rw [hl1e] at hlen
          simp at hlen
          omega
        · rw [hcons, hstep, hl1e]
          rfl
      · have hlast' : l1'.getLast? = some b := by
          have hsame : (c :: l1').getLast? = l1'.getLast? := by
            conv_lhs => rw [show c :: l1' = [c] ++ l1' from rfl]
            exact List.getLast?_append_of_ne_nil [c] hl1e
          rw [← hsame]
          exact hlast
        obtain ⟨u', fuel2, hf2, heq⟩ := ih l1' (some c) hl1e hlast'
          (by simp at hlen ⊢; omega)
        exact ⟨c :: u', fuel2, hf2, by rw [hcons, hstep, heq]; rfl⟩
    | some n =>
      obtain ⟨hn1, hcls⟩ := matchAt_chars p (c :: (l1' ++ rest)) n hm
      have hnlt : n < (c :: l1').length := by
        by_contra hge
        push_neg at hge
        have hbid : ((c :: l1') ++ rest)[(c :: l1').length - 1]? = some b := by
          rw [List.getElem?_append_left (by simp),
            ← List.getLast?_eq_getElem? (c :: l1')]
          exact hlast
        obtain ⟨c2, hc2, hcls2⟩ := hcls ((c :: l1').length - 1)
          (by simp; simp at hge; omega)
        rw [hcons] at hbid
        rw [hbid] at hc2
        cases hc2
        obtain ⟨hsl, hsa, hsb⟩ := sep_elim b hb
        rcases hcls2 with hx | hx | hx
        · rw [hsl] at hx
          cases hx
        · exact hsa hx
        · exact hsb hx
      have hstep : scanRedactGo (f + 1) p (c :: (l1' ++ rest)) =
          (("***").toList ++
            (if (((c :: (l1' ++ rest)).take n).dropWhile
                (fun ch => !(ch == '@'))).isEmpty then ("@***").toList
             else ((c :: (l1' ++ rest)).take n).dropWhile
               (fun ch => !(ch == '@')))) ++
          scanRedactGo f ((c :: (l1' ++ rest)).take n).getLast?
            ((l1' ++ rest).drop (n - 1)) :=
        scanRedactGo_match_step f p c (l1' ++ rest) n hm
      have hdropsplit : (l1' ++ rest).drop (n - 1) =
          l1'.drop (n - 1) ++ rest :=
        List.drop_append_of_le_length (by simp at hnlt; omega)
      have hl1ne : l1'.drop (n - 1) ≠ [] := by
        intro hc
        have := congrArg List.length hc
        simp at this hnlt
        omega
      have hlast' : (l1'.drop (n - 1)).getLast? = some b := by
        rw [getLast?_drop_of_lt l1' (n - 1) (by simp at hnlt; omega)]
        have : (c :: l1').getLast? = l1'.getLast? := by
          conv_lhs => rw [show c :: l1' = [c] ++ l1' from rfl]
          exact List.getLast?_append_of_ne_nil [c] (by
            intro hc
            rw [hc] at hnlt
            simp at hnlt
            omega)
        rw [← this]
        exact hlast
      obtain ⟨u', fuel2, hf2, heq⟩ := ih (l1'.drop (n - 1))
        (((c :: (l1' ++ rest)).take n).getLast?) hl1ne hlast'
        (by
          simp only [List.length_append, List.length_drop] at hlen ⊢
          simp at hlen
          omega)
      refine ⟨(("***").toList ++
          (if (((c :: (l1' ++ rest)).take n).dropWhile
              (fun ch => !(ch == '@'))).isEmpty then ("@***").toList
           else ((c :: (l1' ++ rest)).take n).dropWhile
             (fun ch => !(ch == '@')))) ++ u', fuel2, hf2, ?_⟩
      rw [hcons, hstep, hdropsplit, heq]
      simp [List.append_assoc]

lemma domSearch_skip (rest : Str) (jlo : Nat) :
    ∀ d, (∀ i, jlo < i → i ≤ jlo + d → ¬(rest[i]? = some '.')) →
      domSearch rest (jlo + d) = domSearch rest jlo := by
  intro d
  induction d with
  | zero => intro _; rfl
  | succ d ih =>
    intro h
    have hne : ¬(rest[jlo + d + 1]? = some '.') := h _ (by omega) (by omega)
    have harith : jlo + (d + 1) = (jlo + d) + 1 := by omega
    rw [harith]
    simp only [domSearch]
    rw [if_neg hne]
    exact ih (fun i h1 h2 => h i h1 (by omega))

lemma domSearch_region (Y T post : Str)
    (hY : Y ≠ []) (hYc : ∀ c ∈ Y, isDomainChar c = true)
    (hT : 2 ≤ T.length) (hTc : ∀ c ∈ T, c.isAlpha = true)
    (hpost : post = [] ∨ ∃ d t, post = d :: t ∧ isSepChar d = true) :
    domSearch (Y ++ '.' :: (T ++ post))
        (((Y ++ '.' :: (T ++ post)).takeWhile isDomainChar).length) =
      some (Y.length, T.length) := by
  have hpostTw : ∀ p2 : Char → Bool,
      (∀ d, isSepChar d = true → p2 d = false) →
      post.takeWhile p2 = [] := by
    intro p2 hp2
    rcases hpost with rfl | ⟨d, t, rfl, hd⟩
    · rfl
    · exact takeWhile_head_false p2 d t (hp2 d hd)
  have htw : (Y ++ '.' :: (T ++ post)).takeWhile isDomainChar =
      Y ++ '.' :: T := by
    have hassoc : Y ++ '.' :: (T ++ post) = (Y ++ '.' :: T) ++ post := by
      simp
    rw [hassoc, takeWhile_append_of_all isDomainChar (Y ++ '.' :: T) post
      (by
        intro c hc
        rcases List.mem_append.mp hc with hcy | hct
        · exact hYc c hcy
        · rcases List.mem_cons.mp hct with rfl | hct2
          · decide
          · have := hTc c hct2
            simp [isDomainChar, Char.isAlphanum, this]),
      hpostTw isDomainChar (fun d hd => sep_not_domain d hd),
      List.append_nil]
  rw [htw]
  have hlen : (Y ++ '.' :: T).length = Y.length + (T.length + 1) := by
    simp
  rw [hlen]
  have hdot : ∀ i, Y.length < i → i ≤ Y.length + (T.length + 1) →
      ¬((Y ++ '.' :: (T ++ post))[i]? = some '.') := by
    intro i h1 h2
    have hsplit : Y ++ '.' :: (T ++ post) = (Y ++ ['.']) ++ (T ++ post) := by
      simp
    rw [hsplit, List.getElem?_append_right (by simp; omega)]
    have hidx : i - (Y ++ ['.']).length = i - Y.length - 1 := by
      simp
      omega
    rw [hidx]
    by_cases hklt : i - Y.length - 1 < T.length
    · rw [List.getElem?_append_left hklt, List.getElem?_eq_getElem hklt]
      intro hc
      have halpha := hTc _ (List.getElem_mem hklt)
      rw [Option.some.injEq] at hc
      rw [hc] at halpha
      exact absurd halpha (by decide)
    · have hkeq : i - Y.length - 1 = T.length := by omega
      rw [List.getElem?_append_right (by omega), hkeq, Nat.sub_self]
      rcases hpost with rfl | ⟨d, t, rfl, hd⟩
      · simp
      · intro hc
        have hdd : d = '.' := by simpa using hc
        rw [hdd] at hd
        exact absurd hd (by decide)
  rw [domSearch_skip (Y ++ '.' :: (T ++ post)) Y.length (T.length + 1) hdot]
  obtain ⟨yl, hyl⟩ : ∃ yl, Y.length = yl + 1 := by
    cases Y with
    | nil => exact absurd rfl hY
    | cons y Y2 => exact ⟨Y2.length, by simp⟩
  rw [hyl]
  simp only [domSearch]
  have hdotpos : (Y ++ '.' :: (T ++ post))[yl + 1]? = some '.' := by
    rw [← hyl, List.getElem?_append_right (le_refl Y.length), Nat.sub_self]
    simp
  rw [if_pos hdotpos]
  have hdrop : (Y ++ '.' :: (T ++ post)).drop (yl + 1 + 1) = T ++ post := by
    have hsplit : Y ++ '.' :: (T ++ post) = (Y ++ ['.']) ++ (T ++ post) := by
      simp
    have hlen2 : yl + 1 + 1 = (Y ++ ['.']).length := by
      simp [hyl]
    rw [hsplit, hlen2, List.drop_left]
  rw [hdrop]
  have htrun : (T ++ post).takeWhile isTldChar = T := by
    rw [takeWhile_append_of_all isTldChar T post
      (fun c hc => by simp [isTldChar, hTc c hc]),
      hpostTw isTldChar (fun d hd => sep_not_tld d hd), List.append_nil]
  rw [htrun]
  obtain ⟨m, hm⟩ : ∃ m, T.length = m + 2 := ⟨T.length - 2, by omega⟩
  rw [hm]
  simp only [tldSearch]
  have hlast : wordAt ((T ++ post)[m + 1]?) = true := by
    have hlt : m + 1 < T.length := by omega
    rw [List.getElem?_append_left hlt, List.getElem?_eq_getElem hlt]
    have := hTc _ (List.getElem_mem hlt)
    simp [wordAt, isWordChar, Char.isAlphanum, this]
  have hnext : wordAt ((T ++ post)[m + 2]?) = false := by
    rw [List.getElem?_append_right (by omega), ← hm, Nat.sub_self]
    rcases hpost with rfl | ⟨d, t, rfl, hd⟩
    · rfl
    · rw [List.getElem?_cons_zero]
      exact sep_not_word d hd
  have hb : isBoundary ((T ++ post)[m + 1]?) ((T ++ post)[m + 2]?) = true := by
    unfold isBoundary
    rw [hlast, hnext]
    rfl
  rw [if_pos hb]

lemma matchAt_region (p : Option Char) (X Y T post : Str)
    (hp : wordAt p = false)
    (hX : X ≠ []) (hXc : ∀ c ∈ X, isLocalChar c = true)
    (hXh : ∀ c, X.head? = some c → isWordChar c = true)
    (hY : Y ≠ []) (hYc : ∀ c ∈ Y, isDomainChar c = true)
    (hT : 2 ≤ T.length) (hTc : ∀ c ∈ T, c.isAlpha = true)
    (hpost : post = [] ∨ ∃ d t, post = d :: t ∧ isSepChar d = true) :
    matchAt p (X ++ '@' :: (Y ++ '.' :: (T ++ post))) =
      some (X.length + 1 + Y.length + 1 + T.length) := by
  obtain ⟨x, X', rfl⟩ : ∃ x X', X = x :: X' := by
    cases X with
    | nil => exact absurd rfl hX
    | cons x X' => exact ⟨x, X', rfl⟩
  unfold matchAt
  have hbound : isBoundary p
      (((x :: X') ++ '@' :: (Y ++ '.' :: (T ++ post))).head?) = true := by
    have hx : isWordChar x = true := hXh x rfl
    have hhead : ((x :: X') ++ '@' :: (Y ++ '.' :: (T ++ post))).head? =
        some x := rfl
    have hwx : wordAt (some x) = true := hx
    unfold isBoundary
    rw [hhead, hp, hwx]
    rfl
  rw [if_pos hbound]
  have hloc : ((x :: X') ++ '@' :: (Y ++ '.' :: (T ++ post))).takeWhile
      isLocalChar = x :: X' := by
    rw [takeWhile_append_of_all isLocalChar (x :: X') _ hXc,
      takeWhile_head_false isLocalChar '@' _ (by decide), List.append_nil]
  simp only [hloc]
  rw [if_neg (by simp)]
  rw [List.drop_left]
  simp only
  rw [domSearch_region Y T post hY hYc hT hTc hpost]

lemma scan_match (p : Option Char) (X Y T post : Str) (fuel : Nat)
    (hfuel : 1 ≤ fuel) (hp : wordAt p = false)
    (hX : X ≠ []) (hXc : ∀ c ∈ X, isLocalChar c = true)
    (hXh : ∀ c, X.head? = some c → isWordChar c = true)
    (hY : Y ≠ []) (hYc : ∀ c ∈ Y, isDomainChar c = true)
    (hT : 2 ≤ T.length) (hTc : ∀ c ∈ T, c.isAlpha = true)
    (hpost : post = [] ∨ ∃ d t, post = d :: t ∧ isSepChar d = true) :
    ∃ v, scanRedactGo fuel p (X ++ '@' :: (Y ++ '.' :: (T ++ post))) =
      (("***").toList ++ '@' :: (Y ++ '.' :: T)) ++ v := by
  obtain ⟨x, X', rfl⟩ : ∃ x X', X = x :: X' := by
    cases X with
    | nil => exact absurd rfl hX
    | cons x X' => exact ⟨x, X', rfl⟩
  obtain ⟨f, rfl⟩ : ∃ f, fuel = f + 1 := by
    cases fuel with
    | zero => simp at hfuel
    | succ f => exact ⟨f, rfl⟩
  have hmatch : matchAt p (x :: (X' ++ '@' :: (Y ++ '.' :: (T ++ post)))) =
      some ((x :: X').length + 1 + Y.length + 1 + T.length) :=
    matchAt_region p (x :: X') Y T post hp hX hXc hXh hY hYc hT hTc hpost
  have hstep := scanRedactGo_match_step f p x
    (X' ++ '@' :: (Y ++ '.' :: (T ++ post)))
    ((x :: X').length + 1 + Y.length + 1 + T.length) hmatch
  have htake : List.take ((x :: X').length + 1 + Y.length + 1 + T.length)
      (x :: (X' ++ '@' :: (Y ++ '.' :: (T ++ post)))) =
      x :: (X' ++ '@' :: (Y ++ '.' :: T)) := by
    have hassoc : x :: (X' ++ '@' :: (Y ++ '.' :: (T ++ post))) =
        (x :: (X' ++ '@' :: (Y ++ '.' :: T))) ++ post := by
      simp
    have hlen : (x :: (X' ++ '@' :: (Y ++ '.' :: T))).length =
        (x :: X').length + 1 + Y.length + 1 + T.length := by
      simp
      omega
    rw [hassoc, ← hlen, List.take_left]
  have hdw : List.dropWhile (fun ch => !(ch == '@'))
      (x :: (X' ++ '@' :: (Y ++ '.' :: T))) = '@' :: (Y ++ '.' :: T) := by
    have hstop := dropWhile_append_stop (fun ch => !(ch == '@')) (x :: X')
      '@' (Y ++ '.' :: T)
      (by
        intro c hc
        have hcal := hXc c hc
        have hne : ¬(c = '@') := by
          intro hceq
          rw [hceq] at hcal
          exact absurd hcal (by decide)
        simp [hne])
      (by simp)
    exact hstop
  rw [htake, hdw] at hstep
  rw [if_neg (by simp)] at hstep
  exact ⟨_, hstep⟩

/-! ## C9 — PII redaction of email addresses -/

/-- C9 (amended): for every string of the form
`pre ++ X ++ "@" ++ Y ++ "." ++ TLD ++ post` — `pre` any text that is
empty or ends in a character outside the pattern's classes (a word
boundary: e.g. a space, colon, quote or parenthesis, as in DLQ error
strings), `X` a non-empty run of local-part characters
(`[A-Za-z0-9._%+-]`) starting with a word character, `Y` a non-empty run
of domain characters, `TLD` at least two letters, `post` empty or
starting with a character outside the pattern's classes — the redacted
form contains `***@Y.TLD` (the matched occurrence is masked). The text
of `X` itself may still occur in the redacted form (see the
counterexample). The error text placed in every DLQ envelope is exactly
the error's rendering passed through this redaction. -/
theorem redact_email_masks_local_part :
    (∀ pre X Y T post : Str,
      (pre = [] ∨ ∃ b, pre.getLast? = some b ∧ isSepChar b = true) →
      X ≠ [] → (∀ c ∈ X, isLocalChar c = true) →
      (∀ c, X.head? = some c → isWordChar c = true) →
      Y ≠ [] → (∀ c ∈ Y, isDomainChar c = true) →
      2 ≤ T.length → (∀ c ∈ T, c.isAlpha = true) →
      (post = [] ∨ ∃ d t, post = d :: t ∧ isSepChar d = true) →
      ∃ u v, redact_email (pre ++ (X ++ '@' :: (Y ++ '.' :: (T ++ post)))) =
        u ++ (("***").toList ++ '@' :: (Y ++ '.' :: T)) ++ v) ∧
    (∀ (e : MailflowError) (handler context : Str) (now : Nat),
      (build_dlq_payload e handler context now).error =
        redact_email e.display) := by
  constructor
  · intro pre X Y T post hpre hX hXc hXh hY hYc hT hTc hpost
    unfold redact_email
    rcases hpre with rfl | ⟨b, hblast, hbsep⟩
    · simp only [List.nil_append]
      obtain ⟨v, hv⟩ := scan_match none X Y T post
        ((X ++ '@' :: (Y ++ '.' :: (T ++ post))).length)
        (by simp only [List.length_append, List.length_cons]; omega)
        rfl hX hXc hXh hY hYc hT hTc hpost
      rw [hv]
      exact ⟨[], v, by simp [List.append_assoc]⟩
    · have hprene : pre ≠ [] := by
        intro hc
        rw [hc] at hblast
        simp at hblast
      obtain ⟨u, fuel2, hf2, hreach⟩ :=
        scan_reach (X ++ '@' :: (Y ++ '.' :: (T ++ post))) b hbsep
          ((pre ++ (X ++ '@' :: (Y ++ '.' :: (T ++ post)))).length) pre none
          hprene hblast (le_refl _)
      rw [hreach]
      obtain ⟨v, hv⟩ := scan_match (some b) X Y T post fuel2
        (by simp only [List.length_append, List.length_cons] at hf2; omega)
        (sep_not_word b hbsep) hX hXc hXh hY hYc hT hTc hpost
      rw [hv]
      exact ⟨u, v, by simp [List.append_assoc]⟩
  · intro e handler context now
    rfl

/-- An executable substring check, used to state the counterexample. -/
def strContains (s pat : Str) : Bool :=
  s.tails.any (fun t => pat.isPrefixOf t)

/-- C9 counterexample: the claim "the redacted form ... does not contain
X" fails — for s = "c@y.com" (X = "c") the redacted form "***@y.com"
still contains "c"; and in the claim's loose reading even the
"contains ***@Y.TLD" half fails — "a@b.co2" contains the email-like
substring "a@b.co" (TLD "co"), yet the pattern's trailing word boundary
makes the regex match nothing, so the text is returned unchanged and
"***@b.co" does not occur. -/
theorem redact_email_keeps_local_text :
    redact_email (("c@y.com").toList) = (("***@y.com").toList) ∧
    (∃ u v : Str, (("***@y.com").toList : Str) =
      u ++ ("c").toList ++ v) ∧
    redact_email (("a@b.co2").toList) = (("a@b.co2").toList) ∧
    strContains (redact_email (("a@b.co2").toList))
      (("***@b.co").toList) = false :=
  ⟨by decide, ⟨("***@y.").toList, ("om").toList, by decide⟩,
   by decide, by decide⟩

/-- Witness for C9 at a concrete input shaped like a real DLQ error
string: in "Validation error: Invalid email address: user@x.com" the
embedded address redacts to "***@x.com". -/
theorem redact_email_masks_witness :
    ∃ u v : Str,
      redact_email ((("Validation error: Invalid email address: ").toList) ++
        ((("user").toList) ++ '@' ::
          ((("x").toList) ++ '.' :: ((("com").toList) ++ [])))) =
        u ++ (("***").toList ++ '@' ::
          ((("x").toList) ++ '.' :: (("com").toList))) ++ v :=
  redact_email_masks_local_part.1
    (("Validation error: Invalid email address: ").toList)
    (("user").toList) (("x").toList) (("com").toList) []
    (Or.inr ⟨' ', by decide, by decide⟩)
    (by decide) (by decide) (by decide) (by decide) (by decide)
    (by decide) (by decide) (Or.inl rfl)
